import Mathlib

/-!
# Verification of the RN-Widget-UI grid layout engine

Shallow embedding of the layout/reorder engine of the RN-Widget-UI
repository (`src/widget/utils/measure.ts`, the skyline `layoutUtils`
module, and the `widgetReducer` of `src/widget/context/WidgetContext.tsx`),
together with proofs and refutations of its specified properties.

Modelling conventions:
* JavaScript numbers are modelled as exact rationals (`ℚ`); the arithmetic
  appearing in the engine (field operations, comparisons, `Math.round`,
  `Math.max`/`Math.min`) is exact on the values involved.
* The device-dependent `Dimensions.get('window').width` is fixed at a
  representative 375 pixels, so `COLUMN_WIDTH = 165`.
* The `Uint16Array` horizon is modelled as a `List Nat` whose stores are
  reduced modulo 2^16, exactly as a `Uint16Array` element store behaves.
* Widget ids (`string | number` in the source) are modelled as `Nat`;
  the opaque `data` payload is a `String`.
* `Array.prototype.sort` with a consistent comparator is a stable sort by
  the comparator's induced preorder; it is modelled by `List.mergeSort`.
-/

/-! ## Constants (src/widget/utils/measure.ts) -/

def SCREEN_WIDTH : ℚ := 375

def MARGIN : ℚ := 15

def COLUMNS : Nat := 2

def COLUMN_WIDTH : ℚ := (SCREEN_WIDTH - MARGIN * ((COLUMNS : ℚ) + 1)) / (COLUMNS : ℚ)

def ROW_HEIGHT : ℚ := COLUMN_WIDTH * 1.1

def GRID_STEP_X : ℚ := COLUMN_WIDTH + MARGIN

def GRID_STEP_Y : ℚ := ROW_HEIGHT + MARGIN

/-- One Uint16Array element holds values modulo 2^16. -/
def U16 : Nat := 65536

theorem COLUMN_WIDTH_eq : COLUMN_WIDTH = 165 := by
  norm_num [COLUMN_WIDTH, SCREEN_WIDTH, MARGIN, COLUMNS]

theorem ROW_HEIGHT_eq : ROW_HEIGHT = 363/2 := by
  norm_num [ROW_HEIGHT, COLUMN_WIDTH_eq]

theorem GRID_STEP_X_eq : GRID_STEP_X = 180 := by
  norm_num [GRID_STEP_X, COLUMN_WIDTH_eq, MARGIN]

theorem GRID_STEP_Y_eq : GRID_STEP_Y = 393/2 := by
  norm_num [GRID_STEP_Y, ROW_HEIGHT_eq, MARGIN]

/-! ## Data model (src/widget/utils/types.ts)

`gridRow`/`gridCol` are not declared on the `Widget` interface but are
attached by the packer and read back (possibly `undefined`) by the
reorder resolver, hence they are modelled as `Option Int`. -/

structure Widget where
  id : Nat
  data : String
  x : ℚ
  y : ℚ
  width : ℚ
  height : ℚ
  zIndex : Int
  gridRow? : Option Int := none
  gridCol? : Option Int := none
deriving DecidableEq, Repr, Inhabited

/-! ## The skyline packer (layoutUtils, `recalculateLayout`) -/

def getGridSizeFromDimensions (width height : ℚ) : Nat × Nat :=
  (if COLUMN_WIDTH + 20 < width then 2 else 1,
   if ROW_HEIGHT + 20 < height then 2 else 1)

def getDimensionsFromGridSize (colSpan rowSpan : Nat) : ℚ × ℚ :=
  ((colSpan : ℚ) * COLUMN_WIDTH + ((colSpan : ℚ) - 1) * MARGIN,
   (rowSpan : ℚ) * ROW_HEIGHT + ((rowSpan : ℚ) - 1) * MARGIN)

/-- `let maxH = 0; for (span...) maxH = Math.max(maxH, horizon[c + span])`. -/
def spanMax (horizon : List Nat) (c colSpan : Nat) : Nat :=
  (List.range colSpan).foldl (fun maxH span => max maxH (horizon.getD (c + span) 0)) 0

/-- The `for (c = 0; c <= COLUMNS - colSpan; c++)` search for the lowest
skyline segment, keeping the leftmost column on ties (`maxH < bestRow`).
`none` plays the role of the initial `bestRow = Infinity`; the loop body
always runs for the spans this engine produces, so the default is inert. -/
def findBest (horizon : List Nat) (colSpan : Nat) : Nat × Nat :=
  ((List.range (COLUMNS - colSpan + 1)).foldl
    (fun best c =>
      let maxH := spanMax horizon c colSpan
      match best with
      | none => some (maxH, c)
      | some b => if maxH < b.1 then some (maxH, c) else some b)
    none).getD (0, 0)

/-- `horizon[bestCol + span] = bestRow + rowSpan`: a `Uint16Array` store
keeps the value modulo 2^16. -/
def updateHorizon (horizon : List Nat) (bestCol colSpan v : Nat) : List Nat :=
  (List.range colSpan).foldl (fun h span => h.set (bestCol + span) (v % U16)) horizon

/-- Body of the `widgets.map` callback in `recalculateLayout`: places one
widget against the current horizon and returns the updated horizon and
the placed widget (the original object when the computed layout matches
it exactly — identity preservation). -/
def placeWidget (horizon : List Nat) (widget : Widget) : List Nat × Widget :=
  let spans := getGridSizeFromDimensions widget.width widget.height
  let colSpan := spans.1
  let rowSpan := spans.2
  let best := findBest horizon colSpan
  let bestRow := best.1
  let bestCol := best.2
  let horizon2 := updateHorizon horizon bestCol colSpan (bestRow + rowSpan)
  let dim := getDimensionsFromGridSize colSpan rowSpan
  let newX := MARGIN + (bestCol : ℚ) * GRID_STEP_X
  let newY := (bestRow : ℚ) * GRID_STEP_Y
  if widget.x = newX ∧ widget.y = newY ∧ widget.width = dim.1 ∧ widget.height = dim.2 ∧
      widget.gridRow? = some (bestRow : Int) ∧ widget.gridCol? = some (bestCol : Int) then
    (horizon2, widget)
  else
    (horizon2,
      { widget with
        x := newX
        y := newY
        width := dim.1
        height := dim.2
        gridRow? := some (bestRow : Int)
        gridCol? := some (bestCol : Int) })

/-- The `widgets.map(...)` traversal threading the mutable horizon. -/
def layoutPass (horizon : List Nat) : List Widget → List Widget
  | [] => []
  | w :: ws =>
    let p := placeWidget horizon w
    p.2 :: layoutPass p.1 ws

/-- The comparator `(a, b) => a.y === b.y ? a.x - b.x : a.y - b.y` as the
non-strict order "comparator result ≤ 0". -/
def widgetLe (a b : Widget) : Bool :=
  decide (a.y < b.y) || (a.y == b.y && decide (a.x ≤ b.x))

def recalculateLayout (widgets : List Widget) : List Widget :=
  if widgets.isEmpty then []
  else (layoutPass (List.replicate COLUMNS 0) widgets).mergeSort widgetLe

/-! ## The reorder resolver (layoutUtils, `reorderWidgets`) -/

/-- `Math.round` on exact rationals: round half toward positive infinity. -/
def jsRound (q : ℚ) : Int := (q + 1/2).floor

/-- `wRow * COLUMNS + wCol` with the `gridRow ?? Math.round(...)` fallbacks. -/
def widgetSortKey (w : Widget) : Int :=
  (w.gridRow?.getD (jsRound (w.y / GRID_STEP_Y))) * (COLUMNS : Int) +
    (w.gridCol?.getD (jsRound ((w.x - MARGIN) / GRID_STEP_X)))

/-- `activeRow * COLUMNS + Math.max(0, Math.min(activeCol, COLUMNS - 1))`. -/
def targetSortKeyOf (newX newY : ℚ) : Int :=
  jsRound (newY / GRID_STEP_Y) * (COLUMNS : Int) +
    max 0 (min (jsRound ((newX - MARGIN) / GRID_STEP_X)) ((COLUMNS : Int) - 1))

/-- The `while (low < high)` binary search of `reorderWidgets`. -/
def binSearch (remaining : List Widget) (targetKey : Int) (isDraggingDown : Bool)
    (low high : Nat) : Nat :=
  if hlt : low < high then
    let mid := (low + high) / 2
    let wKey := widgetSortKey (remaining.getD mid default)
    if isDraggingDown then
      if wKey ≤ targetKey then binSearch remaining targetKey isDraggingDown (mid + 1) high
      else binSearch remaining targetKey isDraggingDown low mid
    else
      if wKey < targetKey then binSearch remaining targetKey isDraggingDown (mid + 1) high
      else binSearch remaining targetKey isDraggingDown low mid
  else low
termination_by high - low
decreasing_by all_goals omega

def reorderWidgets (widgets : List Widget) (widgetId : Nat) (newX newY : ℚ) :
    List Widget :=
  match widgets.findIdx? (fun w => w.id == widgetId) with
  | none => widgets
  | some widgetIndex =>
    let widget := widgets.getD widgetIndex default
    let targetSortKey := targetSortKeyOf newX newY
    let originalSortKey := widgetSortKey widget
    if targetSortKey = originalSortKey then widgets
    else
      let remainingWidgets := widgets.eraseIdx widgetIndex
      let isDraggingDown := decide (targetSortKey > originalSortKey)
      let low := binSearch remainingWidgets targetSortKey isDraggingDown
        0 remainingWidgets.length
      recalculateLayout (remainingWidgets.insertIdx low widget)

/-! ## Mutation operations -/

def appendWidget (widgets : List Widget) (widget : Widget) : List Widget :=
  recalculateLayout (widgets ++ [widget])

def resizeWidgetInList (widgets : List Widget) (widgetId : Nat)
    (newWidth newHeight : ℚ) : List Widget :=
  recalculateLayout
    (widgets.map (fun w =>
      if w.id == widgetId then { w with width := newWidth, height := newHeight } else w))

/-- `REMOVE_WIDGET` branch of `widgetReducer` (WidgetContext.tsx). -/
def removeWidget (widgets : List Widget) (widgetId : Nat) : List Widget :=
  recalculateLayout (widgets.filter (fun w => !(w.id == widgetId)))

/-- `BRING_TO_FRONT` branch of `widgetReducer` (WidgetContext.tsx). -/
def bringToFront (widgets : List Widget) (widgetId : Nat) : List Widget :=
  widgets.map (fun w => if w.id == widgetId then { w with zIndex := 999 } else w)

/-! ## Content height (layoutUtils, `calculateTotalContentHeight`) -/

def calculateTotalContentHeight (widgets : List Widget) : ℚ :=
  if widgets.isEmpty then 0
  else
    let scanCount := min widgets.length (COLUMNS + 2)
    let maxY := (List.range scanCount).foldl
      (fun maxY i =>
        let w := widgets.getD (widgets.length - 1 - i) default
        if maxY < w.y + w.height then w.y + w.height else maxY)
      0
    maxY + MARGIN + 100

/-! ## Basic facts about the placement step -/

/-- Spans computed for a widget's current dimensions. -/
def spansOf (w : Widget) : Nat × Nat := getGridSizeFromDimensions w.width w.height

/-- The widget value produced by a placement at `(r, c)` with spans `(cs, rs)`. -/
def mkPlaced (w : Widget) (r c cs rs : Nat) : Widget :=
  { w with
    x := MARGIN + (c : ℚ) * GRID_STEP_X
    y := (r : ℚ) * GRID_STEP_Y
    width := (getDimensionsFromGridSize cs rs).1
    height := (getDimensionsFromGridSize cs rs).2
    gridRow? := some (r : Int)
    gridCol? := some (c : Int) }

theorem findBest_one (h0 h1 : Nat) :
    findBest [h0, h1] 1 = if h1 < h0 then (h1, 1) else (h0, 0) := by
  simp only [findBest, spanMax, COLUMNS, List.range, List.range.loop, List.foldl,
    List.getD, Nat.zero_max, List.getElem?_cons_zero, List.getElem?_cons_succ,
    Option.getD_some]
  split <;> rename_i h <;> simp at h <;> simp [h, Nat.not_lt_of_le h]

theorem findBest_two (h0 h1 : Nat) : findBest [h0, h1] 2 = (max h0 h1, 0) := by
  have : max (max 0 h0) h1 = max h0 h1 := by
    simp [Nat.zero_max]
  simp [findBest, spanMax, COLUMNS, List.range, List.range.loop, this]

theorem updateHorizon_oneZero (h0 h1 v : Nat) :
    updateHorizon [h0, h1] 0 1 v = [v % U16, h1] := rfl

theorem updateHorizon_oneOne (h0 h1 v : Nat) :
    updateHorizon [h0, h1] 1 1 v = [h0, v % U16] := rfl

theorem updateHorizon_two (h0 h1 v : Nat) :
    updateHorizon [h0, h1] 0 2 v = [v % U16, v % U16] := rfl

/-- Whether or not the identity-preservation branch fires, the placed widget
is (as a value) the record update, and the horizon is the updated one. -/
theorem placeWidget_eq (horizon : List Nat) (w : Widget) :
    placeWidget horizon w =
      (updateHorizon horizon (findBest horizon (spansOf w).1).2 (spansOf w).1
        ((findBest horizon (spansOf w).1).1 + (spansOf w).2),
       mkPlaced w (findBest horizon (spansOf w).1).1 (findBest horizon (spansOf w).1).2
         (spansOf w).1 (spansOf w).2) := by
  simp only [placeWidget, spansOf]
  split
  · rename_i hcond
    obtain ⟨hx, hy, hw, hh, hr, hc⟩ := hcond
    refine Prod.ext rfl ?_
    show w = mkPlaced w _ _ _ _
    cases w
    simp only [mkPlaced, Widget.mk.injEq, true_and, and_true]
    exact ⟨hx, hy, hw, hh, hr, hc⟩
  · rfl

theorem mkPlaced_mkPlaced (w : Widget) (r c cs rs r' c' cs' rs' : Nat) :
    mkPlaced (mkPlaced w r' c' cs' rs') r c cs rs = mkPlaced w r c cs rs := rfl

@[simp] theorem mkPlaced_id (w : Widget) (r c cs rs : Nat) :
    (mkPlaced w r c cs rs).id = w.id := rfl

@[simp] theorem mkPlaced_data (w : Widget) (r c cs rs : Nat) :
    (mkPlaced w r c cs rs).data = w.data := rfl

@[simp] theorem mkPlaced_zIndex (w : Widget) (r c cs rs : Nat) :
    (mkPlaced w r c cs rs).zIndex = w.zIndex := rfl

@[simp] theorem mkPlaced_row (w : Widget) (r c cs rs : Nat) :
    (mkPlaced w r c cs rs).gridRow? = some (r : Int) := rfl

@[simp] theorem mkPlaced_col (w : Widget) (r c cs rs : Nat) :
    (mkPlaced w r c cs rs).gridCol? = some (c : Int) := rfl

@[simp] theorem mkPlaced_x (w : Widget) (r c cs rs : Nat) :
    (mkPlaced w r c cs rs).x = MARGIN + (c : ℚ) * GRID_STEP_X := rfl

@[simp] theorem mkPlaced_y (w : Widget) (r c cs rs : Nat) :
    (mkPlaced w r c cs rs).y = (r : ℚ) * GRID_STEP_Y := rfl

@[simp] theorem mkPlaced_width (w : Widget) (r c cs rs : Nat) :
    (mkPlaced w r c cs rs).width = (getDimensionsFromGridSize cs rs).1 := rfl

@[simp] theorem mkPlaced_height (w : Widget) (r c cs rs : Nat) :
    (mkPlaced w r c cs rs).height = (getDimensionsFromGridSize cs rs).2 := rfl

/-- Snapped dimensions recompute the same spans (for the spans this engine
produces). -/
theorem spans_roundtrip (cs rs : Nat) (hcs : cs = 1 ∨ cs = 2) (hrs : rs = 1 ∨ rs = 2) :
    getGridSizeFromDimensions (getDimensionsFromGridSize cs rs).1
      (getDimensionsFromGridSize cs rs).2 = (cs, rs) := by
  rcases hcs with rfl | rfl <;> rcases hrs with rfl | rfl <;>
    with_unfolding_all decide

theorem spansOf_mkPlaced (w : Widget) (r c cs rs : Nat)
    (hcs : cs = 1 ∨ cs = 2) (hrs : rs = 1 ∨ rs = 2) :
    spansOf (mkPlaced w r c cs rs) = (cs, rs) := by
  show getGridSizeFromDimensions _ _ = _
  rw [mkPlaced_width, mkPlaced_height, spans_roundtrip cs rs hcs hrs]

theorem spansOf_fst (w : Widget) : (spansOf w).1 = 1 ∨ (spansOf w).1 = 2 := by
  unfold spansOf getGridSizeFromDimensions
  by_cases h : COLUMN_WIDTH + 20 < w.width <;> simp [h]

theorem spansOf_snd (w : Widget) : (spansOf w).2 = 1 ∨ (spansOf w).2 = 2 := by
  unfold spansOf getGridSizeFromDimensions
  by_cases h : ROW_HEIGHT + 20 < w.height <;> simp [h]

theorem length_layoutPass (h : List Nat) (ws : List Widget) :
    (layoutPass h ws).length = ws.length := by
  induction ws generalizing h with
  | nil => rfl
  | cons w ws ih => simp [layoutPass, ih]

/-! ## Grid cells, sort keys and disjointness -/

def rowOf (w : Widget) : Int := w.gridRow?.getD 0

def colOf (w : Widget) : Int := w.gridCol?.getD 0

def colSpanOf (w : Widget) : Nat := (spansOf w).1

def rowSpanOf (w : Widget) : Nat := (spansOf w).2

/-- The occupied cell rectangles `[gridRow, gridRow+rowSpan) ×
[gridCol, gridCol+colSpan)` of `a` and `b` do not intersect. -/
def cellDisjoint (a b : Widget) : Prop :=
  rowOf a + (rowSpanOf a : Int) ≤ rowOf b ∨ rowOf b + (rowSpanOf b : Int) ≤ rowOf a ∨
  colOf a + (colSpanOf a : Int) ≤ colOf b ∨ colOf b + (colSpanOf b : Int) ≤ colOf a

instance (a b : Widget) : Decidable (cellDisjoint a b) := by
  unfold cellDisjoint; infer_instance

theorem cellDisjoint_symm {a b : Widget} : cellDisjoint a b → cellDisjoint b a := by
  unfold cellDisjoint; tauto

/-- Strict order of grid cells: row, then column. -/
def keyLt (a b : Widget) : Prop :=
  rowOf a < rowOf b ∨ (rowOf a = rowOf b ∧ colOf a < colOf b)

/-- A widget value that looks exactly like a packer placement at `(r, c)`
with spans `(cs, rs)`. -/
structure IsPlaced (w : Widget) (r c cs rs : Nat) : Prop where
  hrow : w.gridRow? = some (r : Int)
  hcol : w.gridCol? = some (c : Int)
  hx : w.x = MARGIN + (c : ℚ) * GRID_STEP_X
  hy : w.y = (r : ℚ) * GRID_STEP_Y
  hw : w.width = (getDimensionsFromGridSize cs rs).1
  hh : w.height = (getDimensionsFromGridSize cs rs).2
  hcs : cs = 1 ∨ cs = 2
  hrs : rs = 1 ∨ rs = 2
  hcb : c + cs ≤ 2

theorem isPlaced_mkPlaced (w : Widget) (r c cs rs : Nat)
    (hcs : cs = 1 ∨ cs = 2) (hrs : rs = 1 ∨ rs = 2) (hcb : c + cs ≤ 2) :
    IsPlaced (mkPlaced w r c cs rs) r c cs rs :=
  ⟨rfl, rfl, rfl, rfl, rfl, rfl, hcs, hrs, hcb⟩

theorem IsPlaced.spans {w : Widget} {r c cs rs : Nat} (h : IsPlaced w r c cs rs) :
    spansOf w = (cs, rs) := by
  unfold spansOf
  rw [h.hw, h.hh]
  exact spans_roundtrip cs rs h.hcs h.hrs

theorem IsPlaced.rowOf_eq {w : Widget} {r c cs rs : Nat} (h : IsPlaced w r c cs rs) :
    rowOf w = (r : Int) := by
  unfold rowOf; rw [h.hrow]; rfl

theorem IsPlaced.colOf_eq {w : Widget} {r c cs rs : Nat} (h : IsPlaced w r c cs rs) :
    colOf w = (c : Int) := by
  unfold colOf; rw [h.hcol]; rfl

theorem IsPlaced.colSpanOf_eq {w : Widget} {r c cs rs : Nat} (h : IsPlaced w r c cs rs) :
    colSpanOf w = cs := by
  unfold colSpanOf; rw [h.spans]

theorem IsPlaced.rowSpanOf_eq {w : Widget} {r c cs rs : Nat} (h : IsPlaced w r c cs rs) :
    rowSpanOf w = rs := by
  unfold rowSpanOf; rw [h.spans]

/-! ## The skyline invariant and one placement step -/

/-- After the last placement at `(r, c)`: no column of the horizon is below
row `r`, and a column still exactly at `r` lies strictly right of `c`. -/
def HorizonInv (h0 h1 : Nat) : Option (Nat × Nat) → Prop
  | none => True
  | some (r, c) => r ≤ h0 ∧ (h0 = r → c < 0) ∧ r ≤ h1 ∧ (h1 = r → c < 1)

/-- `(r, c)` comes strictly after the given placement key (if any). -/
def keyGt : Option (Nat × Nat) → Nat → Nat → Prop
  | none, _, _ => True
  | some (lr, lc), r, c => lr < r ∨ (lr = r ∧ lc < c)

theorem keyGt_trans {last : Option (Nat × Nat)} {br bc r c : Nat}
    (h1 : keyGt last br bc) (h2 : keyGt (some (br, bc)) r c) : keyGt last r c := by
  match last with
  | none => trivial
  | some (lr, lc) =>
    simp only [keyGt] at *
    omega

/-- Everything `layoutPass` guarantees about one placement step. -/
structure StepFacts (h0 h1 cs rs br bc h0' h1' : Nat) : Prop where
  hbc : bc + cs ≤ 2
  low0 : bc = 0 → h0 ≤ br
  low1 : bc + cs = 2 → h1 ≤ br
  mono0 : h0 ≤ h0'
  mono1 : h1 ≤ h1'
  grow : max h0' h1' ≤ max h0 h1 + 2
  cover0 : bc = 0 → h0' = br + rs
  cover1 : bc + cs = 2 → h1' = br + rs
  inv : HorizonInv h0' h1' (some (br, bc))
  adv : ∀ last, HorizonInv h0 h1 last → keyGt last br bc

theorem place_step (h0 h1 cs rs : Nat) (hcs : cs = 1 ∨ cs = 2)
    (hrs : rs = 1 ∨ rs = 2) (hsmall : max h0 h1 + 2 ≤ 65535) :
    ∃ br bc h0' h1', findBest [h0, h1] cs = (br, bc) ∧
      updateHorizon [h0, h1] bc cs (br + rs) = [h0', h1'] ∧
      StepFacts h0 h1 cs rs br bc h0' h1' := by
  have hrs1 : 1 ≤ rs := by omega
  have hrs2 : rs ≤ 2 := by omega
  have hadv : ∀ (br bc : Nat), (br ≤ h0 ∧ (h0 = br → 0 < bc)) →
      (br ≤ h1 ∧ (h1 = br → 1 < bc ∨ bc = 1)) → False ∨ True := fun _ _ _ _ => Or.inr trivial
  rcases hcs with rfl | rfl
  · rcases Nat.lt_or_ge h1 h0 with hlt | hge
    · -- colSpan = 1, right column strictly lower
      refine ⟨h1, 1, h0, (h1 + rs) % U16, ?_, ?_, ?_⟩
      · rw [findBest_one, if_pos hlt]
      · rw [updateHorizon_oneOne]
      · have hm : (h1 + rs) % U16 = h1 + rs := Nat.mod_eq_of_lt (by unfold U16; omega)
        rw [hm]
        refine ⟨by omega, by omega, by omega, by omega, by omega, by omega,
          by omega, by omega, ?_, ?_⟩
        · simp only [HorizonInv]; omega
        · intro last hinv
          match last with
          | none => trivial
          | some (lr, lc) =>
            simp only [HorizonInv] at hinv
            simp only [keyGt]
            omega
    · -- colSpan = 1, left column not higher (leftmost tie-break)
      refine ⟨h0, 0, (h0 + rs) % U16, h1, ?_, ?_, ?_⟩
      · rw [findBest_one, if_neg (by omega)]
      · rw [updateHorizon_oneZero]
      · have hm : (h0 + rs) % U16 = h0 + rs := Nat.mod_eq_of_lt (by unfold U16; omega)
        rw [hm]
        refine ⟨by omega, by omega, by omega, by omega, by omega, by omega,
          by omega, by omega, ?_, ?_⟩
        · simp only [HorizonInv]; omega
        · intro last hinv
          match last with
          | none => trivial
          | some (lr, lc) =>
            simp only [HorizonInv] at hinv
            simp only [keyGt]
            omega
  · -- colSpan = 2
    refine ⟨max h0 h1, 0, (max h0 h1 + rs) % U16, (max h0 h1 + rs) % U16, ?_, ?_, ?_⟩
    · rw [findBest_two]
    · rw [updateHorizon_two]
    · have hm : (max h0 h1 + rs) % U16 = max h0 h1 + rs :=
        Nat.mod_eq_of_lt (by unfold U16; omega)
      rw [hm]
      refine ⟨by omega, by omega, by omega, by omega, by omega, by omega,
        by omega, by omega, ?_, ?_⟩
      · simp only [HorizonInv]; omega
      · intro last hinv
        match last with
        | none => trivial
        | some (lr, lc) =>
          simp only [HorizonInv] at hinv
          simp only [keyGt]
          omega

/-! ## The master invariant of a whole pass -/

/-- Facts about every widget placed by a pass started at horizon
`[h0, h1]` right after a placement with key `last`. -/
structure PassFacts (h0 h1 : Nat) (last : Option (Nat × Nat)) (out : List Widget) : Prop where
  shapes : ∀ w ∈ out, ∃ r c cs rs, IsPlaced w r c cs rs ∧ keyGt last r c ∧
    (c = 0 → h0 ≤ r) ∧ (c + cs = 2 → h1 ≤ r)
  sorted : out.Pairwise keyLt
  disj : out.Pairwise cellDisjoint

theorem layoutPass_facts :
    ∀ (ws : List Widget) (h0 h1 : Nat) (last : Option (Nat × Nat)),
      HorizonInv h0 h1 last → max h0 h1 + 2 * ws.length ≤ 65535 →
      PassFacts h0 h1 last (layoutPass [h0, h1] ws) := by
  intro ws
  induction ws with
  | nil =>
    intro h0 h1 last _ _
    exact ⟨by simp [layoutPass], by simp [layoutPass], by simp [layoutPass]⟩
  | cons w ws ih =>
    intro h0 h1 last hinv hbud
    obtain ⟨br, bc, h0', h1', hfb, hupd, hf⟩ :=
      place_step h0 h1 (spansOf w).1 (spansOf w).2 (spansOf_fst w) (spansOf_snd w)
        (by simp only [List.length_cons] at hbud; omega)
    have hout : layoutPass [h0, h1] (w :: ws) =
        mkPlaced w br bc (spansOf w).1 (spansOf w).2 :: layoutPass [h0', h1'] ws := by
      simp only [layoutPass, placeWidget_eq, hfb, hupd]
    have hbud' : max h0' h1' + 2 * ws.length ≤ 65535 := by
      have := hf.grow
      simp only [List.length_cons] at hbud
      omega
    have ihf := ih h0' h1' (some (br, bc)) hf.inv hbud'
    have hipHead : IsPlaced (mkPlaced w br bc (spansOf w).1 (spansOf w).2) br bc
        (spansOf w).1 (spansOf w).2 :=
      isPlaced_mkPlaced w br bc _ _ (spansOf_fst w) (spansOf_snd w) hf.hbc
    have hcs1 : 1 ≤ (spansOf w).1 := by rcases spansOf_fst w with h | h <;> omega
    have hrs1 : 1 ≤ (spansOf w).2 := by rcases spansOf_snd w with h | h <;> omega
    rw [hout]
    refine ⟨?_, ?_, ?_⟩
    · -- shapes
      intro w' hw'
      rcases List.mem_cons.mp hw' with rfl | hmem
      · exact ⟨br, bc, _, _, hipHead, hf.adv last hinv, hf.low0, hf.low1⟩
      · obtain ⟨r, c, cs', rs', hip, hkg, hl0, hl1⟩ := ihf.shapes w' hmem
        exact ⟨r, c, cs', rs', hip, keyGt_trans (hf.adv last hinv) hkg,
          fun h => le_trans hf.mono0 (hl0 h), fun h => le_trans hf.mono1 (hl1 h)⟩
    · -- sorted
      rw [List.pairwise_cons]
      refine ⟨?_, ihf.sorted⟩
      intro b hb
      obtain ⟨r, c, cs', rs', hip, hkg, _, _⟩ := ihf.shapes b hb
      unfold keyLt
      rw [hipHead.rowOf_eq, hipHead.colOf_eq, hip.rowOf_eq, hip.colOf_eq]
      simp only [keyGt] at hkg
      omega
    · -- disjoint
      rw [List.pairwise_cons]
      refine ⟨?_, ihf.disj⟩
      intro b hb
      obtain ⟨r, c, cs', rs', hip, hkg, hl0, hl1⟩ := ihf.shapes b hb
      have hcs'1 : 1 ≤ cs' := by rcases hip.hcs with h | h <;> omega
      have key : (bc + (spansOf w).1 ≤ c ∨ c + cs' ≤ bc) ∨ br + (spansOf w).2 ≤ r := by
        by_cases hcols : bc + (spansOf w).1 ≤ c ∨ c + cs' ≤ bc
        · exact Or.inl hcols
        · right
          push_neg at hcols
          have hshared : (bc = 0 ∧ c = 0) ∨ (bc + (spansOf w).1 = 2 ∧ c + cs' = 2) := by
            have := hf.hbc
            have := hip.hcb
            omega
          rcases hshared with ⟨hb0, hc0⟩ | ⟨hb2, hc2⟩
          · rw [← hf.cover0 hb0]; exact hl0 hc0
          · rw [← hf.cover1 hb2]; exact hl1 hc2
      unfold cellDisjoint
      rw [hipHead.rowOf_eq, hipHead.colOf_eq, hipHead.rowSpanOf_eq, hipHead.colSpanOf_eq,
        hip.rowOf_eq, hip.colOf_eq, hip.rowSpanOf_eq, hip.colSpanOf_eq]
      omega

/-! ## Comparator facts and sortedness of the pass output -/

theorem GRID_STEP_Y_pos : (0 : ℚ) < GRID_STEP_Y := by rw [GRID_STEP_Y_eq]; norm_num

theorem GRID_STEP_X_pos : (0 : ℚ) < GRID_STEP_X := by rw [GRID_STEP_X_eq]; norm_num

theorem widgetLe_refl (a : Widget) : widgetLe a a = true := by
  simp [widgetLe]

theorem widgetLe_trans {a b c : Widget} (hab : widgetLe a b = true)
    (hbc : widgetLe b c = true) : widgetLe a c = true := by
  simp only [widgetLe, Bool.or_eq_true, Bool.and_eq_true, decide_eq_true_eq,
    beq_iff_eq] at *
  rcases hab with h | ⟨h, h'⟩ <;> rcases hbc with g | ⟨g, g'⟩
  · left; linarith
  · left; linarith
  · left; linarith
  · right; exact ⟨h.trans g, by linarith⟩

theorem widgetLe_total (a b : Widget) : (widgetLe a b || widgetLe b a) = true := by
  simp only [widgetLe, Bool.or_eq_true, Bool.and_eq_true, decide_eq_true_eq,
    beq_iff_eq]
  rcases lt_trichotomy a.y b.y with h | h | h
  · tauto
  · rcases le_total a.x b.x with g | g
    · tauto
    · right; right; exact ⟨h.symm, g⟩
  · tauto

theorem widgetLe_antisymm_keys {a b : Widget} (hab : widgetLe a b = true)
    (hba : widgetLe b a = true) : a.y = b.y ∧ a.x = b.x := by
  simp only [widgetLe, Bool.or_eq_true, Bool.and_eq_true, decide_eq_true_eq,
    beq_iff_eq] at *
  rcases hab with h | ⟨h, h'⟩ <;> rcases hba with g | ⟨g, g'⟩ <;>
    constructor <;> linarith

/-- A placement strictly earlier in the grid order is strictly earlier in
the pixel `(y, x)` comparator order. -/
theorem keyLt_widgetLe {a b : Widget} {r c cs rs r' c' cs' rs' : Nat}
    (ha : IsPlaced a r c cs rs) (hb : IsPlaced b r' c' cs' rs')
    (hlt : keyLt a b) : widgetLe a b = true := by
  unfold keyLt at hlt
  rw [ha.rowOf_eq, ha.colOf_eq, hb.rowOf_eq, hb.colOf_eq] at hlt
  simp only [widgetLe, Bool.or_eq_true, Bool.and_eq_true, decide_eq_true_eq,
    beq_iff_eq]
  rcases hlt with h | ⟨h, h'⟩
  · left
    rw [ha.hy, hb.hy]
    have hr : (r : ℚ) < (r' : ℚ) := by exact_mod_cast h
    exact mul_lt_mul_of_pos_right hr GRID_STEP_Y_pos
  · right
    have hr : (r : ℚ) = (r' : ℚ) := by exact_mod_cast h
    have hc : (c : ℚ) < (c' : ℚ) := by exact_mod_cast h'
    constructor
    · rw [ha.hy, hb.hy, hr]
    · rw [ha.hx, hb.hx]
      have := mul_lt_mul_of_pos_right hc GRID_STEP_X_pos
      linarith

/-- Without 16-bit wraparound (at most 32767 widgets) the pass output is
already sorted by the comparator, so the final sort is the identity. -/
theorem recalc_eq_layoutPass (ws : List Widget) (hlen : ws.length ≤ 32767) :
    recalculateLayout ws = layoutPass [0, 0] ws := by
  cases ws with
  | nil => rfl
  | cons w ws =>
    have hfacts := layoutPass_facts (w :: ws) 0 0 none trivial (by
      simp only [List.length_cons] at *
      omega)
    have hsorted : (layoutPass [0, 0] (w :: ws)).Pairwise
        (fun a b => widgetLe a b = true) := by
      refine List.Pairwise.imp_of_mem ?_ hfacts.sorted
      intro a b ha hb hlt
      obtain ⟨r, c, cs, rs, hip, -, -, -⟩ := hfacts.shapes a ha
      obtain ⟨r', c', cs', rs', hip', -, -, -⟩ := hfacts.shapes b hb
      exact keyLt_widgetLe hip hip' hlt
    show (layoutPass (List.replicate COLUMNS 0) (w :: ws)).mergeSort widgetLe = _
    have hrepl : List.replicate COLUMNS 0 = [0, 0] := rfl
    rw [hrepl, List.mergeSort_of_sorted hsorted]

/-- Re-running the pass on its own output reproduces it exactly (the
identity-preservation branch fires at every widget), for every horizon. -/
theorem layoutPass_fixpoint (ws : List Widget) :
    ∀ h : List Nat, layoutPass h (layoutPass h ws) = layoutPass h ws := by
  induction ws with
  | nil => intro h; rfl
  | cons w ws ih =>
    intro h
    have hsp := spansOf_mkPlaced w (findBest h (spansOf w).1).1
      (findBest h (spansOf w).1).2 (spansOf w).1 (spansOf w).2
      (spansOf_fst w) (spansOf_snd w)
    simp only [layoutPass, placeWidget_eq, hsp, mkPlaced_mkPlaced]
    rw [ih]

theorem recalc_idem (ws : List Widget) (hlen : ws.length ≤ 32767) :
    recalculateLayout (recalculateLayout ws) = recalculateLayout ws := by
  rw [recalc_eq_layoutPass ws hlen]
  have hlen' : (layoutPass [0, 0] ws).length ≤ 32767 := by
    rw [length_layoutPass]; exact hlen
  rw [recalc_eq_layoutPass _ hlen', layoutPass_fixpoint]

/-! ## Spec-side formulations: argmin placement and unbounded horizon

`bestRowSpec`/`bestColSpec` are modelled from the spec's words (claim C2):
"compute `maxH = max(horizon[c .. c+colSpan))`; choose the `c` that
minimizes `maxH`; ties broken by smallest `c`".  `setSpanTo` is the
horizon write as the claim literally states it (no 16-bit truncation);
the `*Unbounded` functions are the skyline algorithm with that write. -/

def setSpanTo (horizon : List Nat) (bestCol colSpan v : Nat) : List Nat :=
  (List.range colSpan).foldl (fun h span => h.set (bestCol + span) v) horizon

/-- Modelled from the spec (claim C2): the minimum over feasible start
columns of the horizon maximum over the span. -/
def bestRowSpec (horizon : List Nat) (colSpan : Nat) : Nat :=
  (((List.range (COLUMNS - colSpan + 1)).map
    (fun c => spanMax horizon c colSpan)).min?).getD 0

/-- Modelled from the spec (claim C2): the smallest start column attaining
that minimum. -/
def bestColSpec (horizon : List Nat) (colSpan : Nat) : Nat :=
  ((List.range (COLUMNS - colSpan + 1)).find?
    (fun c => spanMax horizon c colSpan == bestRowSpec horizon colSpan)).getD 0

theorem updateHorizon_eq_setSpanTo (horizon : List Nat) (bestCol colSpan v : Nat) :
    updateHorizon horizon bestCol colSpan v = setSpanTo horizon bestCol colSpan (v % U16) :=
  rfl

theorem bestRowSpec_one (h0 h1 : Nat) : bestRowSpec [h0, h1] 1 = min h0 h1 := by
  unfold bestRowSpec
  simp [COLUMNS, List.range, List.range.loop, spanMax, Nat.zero_max, List.min?]

theorem bestColSpec_one (h0 h1 : Nat) :
    bestColSpec [h0, h1] 1 = if h0 ≤ h1 then 0 else 1 := by
  unfold bestColSpec
  rcases le_or_lt h0 h1 with hle | hlt
  · have hm : min h0 h1 = h0 := Nat.min_eq_left hle
    simp [COLUMNS, List.range, List.range.loop, List.find?, spanMax, Nat.zero_max,
      bestRowSpec_one, hm, hle]
  · have hm : min h0 h1 = h1 := Nat.min_eq_right (Nat.le_of_lt hlt)
    have hne : h0 ≠ h1 := by omega
    simp [COLUMNS, List.range, List.range.loop, List.find?, spanMax, Nat.zero_max,
      bestRowSpec_one, hm, hne, Nat.not_le_of_lt hlt]
    rw [show (h0 == h1) = false by simp [hne]]
    rfl

theorem spanMax_two (h0 h1 : Nat) : spanMax [h0, h1] 0 2 = max h0 h1 := by
  simp [spanMax, List.range, List.range.loop, Nat.zero_max]

theorem bestRowSpec_two (h0 h1 : Nat) : bestRowSpec [h0, h1] 2 = max h0 h1 := by
  unfold bestRowSpec
  simp [COLUMNS, List.range, List.range.loop, spanMax_two, List.min?]

theorem bestColSpec_two (h0 h1 : Nat) : bestColSpec [h0, h1] 2 = 0 := by
  unfold bestColSpec
  simp [COLUMNS, List.range, List.range.loop, List.find?, spanMax_two, bestRowSpec_two]

theorem bestSpec_eq (h0 h1 cs : Nat) (hcs : cs = 1 ∨ cs = 2) :
    (bestRowSpec [h0, h1] cs, bestColSpec [h0, h1] cs) = findBest [h0, h1] cs := by
  rcases hcs with rfl | rfl
  · rw [findBest_one, bestRowSpec_one, bestColSpec_one]
    rcases Nat.lt_or_ge h1 h0 with hlt | hge
    · rw [if_pos hlt, if_neg (show ¬ h0 ≤ h1 by omega),
        Nat.min_eq_right (Nat.le_of_lt hlt)]
    · rw [if_pos (show h0 ≤ h1 by omega), if_neg (show ¬ h1 < h0 by omega),
        Nat.min_eq_left (by omega)]
  · rw [findBest_two, bestRowSpec_two, bestColSpec_two]

/-- The placement step of `recalculateLayout` as it would behave with an
unbounded-arithmetic horizon in place of the `Uint16Array`. -/
def placeWidgetUnbounded (horizon : List Nat) (widget : Widget) : List Nat × Widget :=
  let spans := getGridSizeFromDimensions widget.width widget.height
  let colSpan := spans.1
  let rowSpan := spans.2
  let best := findBest horizon colSpan
  let bestRow := best.1
  let bestCol := best.2
  let horizon2 := setSpanTo horizon bestCol colSpan (bestRow + rowSpan)
  let dim := getDimensionsFromGridSize colSpan rowSpan
  let newX := MARGIN + (bestCol : ℚ) * GRID_STEP_X
  let newY := (bestRow : ℚ) * GRID_STEP_Y
  if widget.x = newX ∧ widget.y = newY ∧ widget.width = dim.1 ∧ widget.height = dim.2 ∧
      widget.gridRow? = some (bestRow : Int) ∧ widget.gridCol? = some (bestCol : Int) then
    (horizon2, widget)
  else
    (horizon2,
      { widget with
        x := newX
        y := newY
        width := dim.1
        height := dim.2
        gridRow? := some (bestRow : Int)
        gridCol? := some (bestCol : Int) })

def layoutPassUnbounded (horizon : List Nat) : List Widget → List Widget
  | [] => []
  | w :: ws =>
    let p := placeWidgetUnbounded horizon w
    p.2 :: layoutPassUnbounded p.1 ws

/-- The unbounded-arithmetic skyline packer referenced by claim C10. -/
def recalculateLayoutUnbounded (widgets : List Widget) : List Widget :=
  if widgets.isEmpty then []
  else (layoutPassUnbounded (List.replicate COLUMNS 0) widgets).mergeSort widgetLe

/-- Modelled from the spec (claim C2, as stated): one skyline step with the
argmin/leftmost placement rule and the horizon write
`horizon[c'] = bestRow + rowSpan` (no 16-bit truncation). -/
def specPlaceLiteral (horizon : List Nat) (widget : Widget) : List Nat × Widget :=
  let spans := getGridSizeFromDimensions widget.width widget.height
  let colSpan := spans.1
  let rowSpan := spans.2
  let bestRow := bestRowSpec horizon colSpan
  let bestCol := bestColSpec horizon colSpan
  let horizon2 := setSpanTo horizon bestCol colSpan (bestRow + rowSpan)
  let dim := getDimensionsFromGridSize colSpan rowSpan
  let newX := MARGIN + (bestCol : ℚ) * GRID_STEP_X
  let newY := (bestRow : ℚ) * GRID_STEP_Y
  if widget.x = newX ∧ widget.y = newY ∧ widget.width = dim.1 ∧ widget.height = dim.2 ∧
      widget.gridRow? = some (bestRow : Int) ∧ widget.gridCol? = some (bestCol : Int) then
    (horizon2, widget)
  else
    (horizon2,
      { widget with
        x := newX
        y := newY
        width := dim.1
        height := dim.2
        gridRow? := some (bestRow : Int)
        gridCol? := some (bestCol : Int) })

def specPassLiteral (horizon : List Nat) : List Widget → List Widget
  | [] => []
  | w :: ws =>
    let p := specPlaceLiteral horizon w
    p.2 :: specPassLiteral p.1 ws

/-- Modelled from the spec (claim C2, as stated): the full packer built from
`specPlaceLiteral`, with the packer's final `(y, x)` sort. -/
def packSpecLiteral (widgets : List Widget) : List Widget :=
  if widgets.isEmpty then []
  else (specPassLiteral (List.replicate COLUMNS 0) widgets).mergeSort widgetLe

/-- Claim C2 amended: same as `specPlaceLiteral` except that the horizon
write is reduced modulo 2^16, as a `Uint16Array` store is. -/
def specPlaceAmended (horizon : List Nat) (widget : Widget) : List Nat × Widget :=
  let spans := getGridSizeFromDimensions widget.width widget.height
  let colSpan := spans.1
  let rowSpan := spans.2
  let bestRow := bestRowSpec horizon colSpan
  let bestCol := bestColSpec horizon colSpan
  let horizon2 := setSpanTo horizon bestCol colSpan ((bestRow + rowSpan) % U16)
  let dim := getDimensionsFromGridSize colSpan rowSpan
  let newX := MARGIN + (bestCol : ℚ) * GRID_STEP_X
  let newY := (bestRow : ℚ) * GRID_STEP_Y
  if widget.x = newX ∧ widget.y = newY ∧ widget.width = dim.1 ∧ widget.height = dim.2 ∧
      widget.gridRow? = some (bestRow : Int) ∧ widget.gridCol? = some (bestCol : Int) then
    (horizon2, widget)
  else
    (horizon2,
      { widget with
        x := newX
        y := newY
        width := dim.1
        height := dim.2
        gridRow? := some (bestRow : Int)
        gridCol? := some (bestCol : Int) })

def specPassAmended (horizon : List Nat) : List Widget → List Widget
  | [] => []
  | w :: ws =>
    let p := specPlaceAmended horizon w
    p.2 :: specPassAmended p.1 ws

/-- Claim C2 amended: the full packer built from `specPlaceAmended`. -/
def packSpecAmended (widgets : List Widget) : List Widget :=
  if widgets.isEmpty then []
  else (specPassAmended (List.replicate COLUMNS 0) widgets).mergeSort widgetLe

/-! Normal forms of the three placement-step variants. -/

theorem placeWidgetUnbounded_eq (horizon : List Nat) (w : Widget) :
    placeWidgetUnbounded horizon w =
      (setSpanTo horizon (findBest horizon (spansOf w).1).2 (spansOf w).1
        ((findBest horizon (spansOf w).1).1 + (spansOf w).2),
       mkPlaced w (findBest horizon (spansOf w).1).1 (findBest horizon (spansOf w).1).2
         (spansOf w).1 (spansOf w).2) := by
  simp only [placeWidgetUnbounded, spansOf]
  split
  · rename_i hcond
    obtain ⟨hx, hy, hw, hh, hr, hc⟩ := hcond
    refine Prod.ext rfl ?_
    show w = mkPlaced w _ _ _ _
    cases w
    simp only [mkPlaced, Widget.mk.injEq, true_and, and_true]
    exact ⟨hx, hy, hw, hh, hr, hc⟩
  · rfl

theorem specPlaceLiteral_eq (horizon : List Nat) (w : Widget) :
    specPlaceLiteral horizon w =
      (setSpanTo horizon (bestColSpec horizon (spansOf w).1) (spansOf w).1
        (bestRowSpec horizon (spansOf w).1 + (spansOf w).2),
       mkPlaced w (bestRowSpec horizon (spansOf w).1) (bestColSpec horizon (spansOf w).1)
         (spansOf w).1 (spansOf w).2) := by
  simp only [specPlaceLiteral, spansOf]
  split
  · rename_i hcond
    obtain ⟨hx, hy, hw, hh, hr, hc⟩ := hcond
    refine Prod.ext rfl ?_
    show w = mkPlaced w _ _ _ _
    cases w
    simp only [mkPlaced, Widget.mk.injEq, true_and, and_true]
    exact ⟨hx, hy, hw, hh, hr, hc⟩
  · rfl

theorem specPlaceAmended_eq (horizon : List Nat) (w : Widget) :
    specPlaceAmended horizon w =
      (setSpanTo horizon (bestColSpec horizon (spansOf w).1) (spansOf w).1
        ((bestRowSpec horizon (spansOf w).1 + (spansOf w).2) % U16),
       mkPlaced w (bestRowSpec horizon (spansOf w).1) (bestColSpec horizon (spansOf w).1)
         (spansOf w).1 (spansOf w).2) := by
  simp only [specPlaceAmended, spansOf]
  split
  · rename_i hcond
    obtain ⟨hx, hy, hw, hh, hr, hc⟩ := hcond
    refine Prod.ext rfl ?_
    show w = mkPlaced w _ _ _ _
    cases w
    simp only [mkPlaced, Widget.mk.injEq, true_and, and_true]
    exact ⟨hx, hy, hw, hh, hr, hc⟩
  · rfl

/-! Pass-level equivalence of the spec formulation with the code. -/

theorem length_foldl_set (l : List Nat) :
    ∀ (h : List Nat) (g : Nat → Nat) (v : Nat),
      (l.foldl (fun h s => h.set (g s) v) h).length = h.length := by
  induction l with
  | nil => intro h g v; rfl
  | cons a l ih => intro h g v; simp [List.foldl_cons, ih, List.length_set]

theorem length_setSpanTo (h : List Nat) (c cs v : Nat) :
    (setSpanTo h c cs v).length = h.length :=
  length_foldl_set (List.range cs) h (fun s => c + s) v

theorem eq_pair_of_length_two {l : List Nat} (h : l.length = 2) :
    ∃ a b, l = [a, b] := by
  match l, h with
  | [a, b], _ => exact ⟨a, b, rfl⟩

theorem specPassLiteral_eq (ws : List Widget) :
    ∀ h0 h1 : Nat, specPassLiteral [h0, h1] ws = layoutPassUnbounded [h0, h1] ws := by
  induction ws with
  | nil => intro h0 h1; rfl
  | cons w ws ih =>
    intro h0 h1
    have hb := bestSpec_eq h0 h1 (spansOf w).1 (spansOf_fst w)
    have hbr : bestRowSpec [h0, h1] (spansOf w).1 = (findBest [h0, h1] (spansOf w).1).1 := by
      rw [← hb]
    have hbc : bestColSpec [h0, h1] (spansOf w).1 = (findBest [h0, h1] (spansOf w).1).2 := by
      rw [← hb]
    simp only [specPassLiteral, layoutPassUnbounded, specPlaceLiteral_eq,
      placeWidgetUnbounded_eq, hbr, hbc]
    obtain ⟨g0, g1, hg⟩ := eq_pair_of_length_two
      (length_setSpanTo [h0, h1] (findBest [h0, h1] (spansOf w).1).2 (spansOf w).1
        ((findBest [h0, h1] (spansOf w).1).1 + (spansOf w).2))
    rw [hg, ih]

theorem specPassAmended_eq (ws : List Widget) :
    ∀ h0 h1 : Nat, specPassAmended [h0, h1] ws = layoutPass [h0, h1] ws := by
  induction ws with
  | nil => intro h0 h1; rfl
  | cons w ws ih =>
    intro h0 h1
    have hb := bestSpec_eq h0 h1 (spansOf w).1 (spansOf_fst w)
    have hbr : bestRowSpec [h0, h1] (spansOf w).1 = (findBest [h0, h1] (spansOf w).1).1 := by
      rw [← hb]
    have hbc : bestColSpec [h0, h1] (spansOf w).1 = (findBest [h0, h1] (spansOf w).1).2 := by
      rw [← hb]
    simp only [specPassAmended, layoutPass, specPlaceAmended_eq, placeWidget_eq,
      updateHorizon_eq_setSpanTo, hbr, hbc]
    obtain ⟨g0, g1, hg⟩ := eq_pair_of_length_two
      (length_setSpanTo [h0, h1] (findBest [h0, h1] (spansOf w).1).2 (spansOf w).1
        (((findBest [h0, h1] (spansOf w).1).1 + (spansOf w).2) % U16))
    rw [hg, ih]

theorem packSpecAmended_eq (ws : List Widget) :
    packSpecAmended ws = recalculateLayout ws := by
  unfold packSpecAmended recalculateLayout
  cases ws with
  | nil => rfl
  | cons w ws =>
    have : List.replicate COLUMNS 0 = [(0 : Nat), 0] := rfl
    rw [this, specPassAmended_eq]

theorem packSpecLiteral_eq (ws : List Widget) :
    packSpecLiteral ws = recalculateLayoutUnbounded ws := by
  unfold packSpecLiteral recalculateLayoutUnbounded
  cases ws with
  | nil => rfl
  | cons w ws =>
    have : List.replicate COLUMNS 0 = [(0 : Nat), 0] := rfl
    rw [this, specPassLiteral_eq]

/-! ## Closed forms for passes of double-span widgets (wraparound analysis) -/

theorem setSpanTo_two (h0 h1 v : Nat) : setSpanTo [h0, h1] 0 2 v = [v, v] := rfl

theorem place22 (w : Widget) (hsp : spansOf w = (2, 2)) (a : Nat) :
    placeWidget [a, a] w = ([(a + 2) % U16, (a + 2) % U16], mkPlaced w a 0 2 2) := by
  rw [placeWidget_eq, hsp]
  simp [findBest_two, updateHorizon_two]

theorem place22U (w : Widget) (hsp : spansOf w = (2, 2)) (a : Nat) :
    placeWidgetUnbounded [a, a] w = ([a + 2, a + 2], mkPlaced w a 0 2 2) := by
  rw [placeWidgetUnbounded_eq, hsp]
  simp [findBest_two, setSpanTo_two]

theorem pass22 : ∀ (m : Nat) (f : Nat → Widget) (a : Nat), a < U16 →
    (∀ k, k < m → spansOf (f k) = (2, 2)) →
    layoutPass [a, a] ((List.range m).map f) =
      (List.range m).map (fun k => mkPlaced (f k) ((a + 2 * k) % U16) 0 2 2) := by
  intro m
  induction m with
  | zero => intro f a _ _; rfl
  | succ m ih =>
    intro f a ha hsp
    have ha' : a < 65536 := ha
    rw [List.range_succ_eq_map]
    simp only [List.map_cons, List.map_map]
    simp only [layoutPass]
    rw [place22 (f 0) (hsp 0 (Nat.succ_pos m)) a]
    simp only []
    congr 1
    · rw [show (a + 2 * 0) % U16 = a by
        show (a + 2 * 0) % 65536 = a
        omega]
    · simp only [Function.comp_def, Nat.succ_eq_add_one]
      rw [ih (fun k => f (k + 1)) ((a + 2) % U16)
        (Nat.mod_lt _ (by show 0 < 65536; omega))
        (fun k hk => hsp (k + 1) (by omega))]
      refine List.map_congr_left ?_
      intro k _
      rw [Nat.mod_add_mod, show a + 2 + 2 * k = a + 2 * (k + 1) by ring]

theorem pass22U : ∀ (m : Nat) (f : Nat → Widget) (a : Nat),
    (∀ k, k < m → spansOf (f k) = (2, 2)) →
    layoutPassUnbounded [a, a] ((List.range m).map f) =
      (List.range m).map (fun k => mkPlaced (f k) (a + 2 * k) 0 2 2) := by
  intro m
  induction m with
  | zero => intro f a _; rfl
  | succ m ih =>
    intro f a hsp
    rw [List.range_succ_eq_map]
    simp only [List.map_cons, List.map_map]
    simp only [layoutPassUnbounded]
    rw [place22U (f 0) (hsp 0 (Nat.succ_pos m)) a]
    simp only []
    congr 1
    simp only [Function.comp_def, Nat.succ_eq_add_one]
    rw [ih (fun k => f (k + 1)) (a + 2) (fun k hk => hsp (k + 1) (by omega))]
    refine List.map_congr_left ?_
    intro k _
    rw [show a + 2 + 2 * k = a + 2 * (k + 1) by ring]

theorem replicate_eq_map_range (n : Nat) (w : Widget) :
    List.replicate n w = (List.range n).map (fun _ => w) := by
  symm
  rw [List.eq_replicate_iff]
  refine ⟨by simp, ?_⟩
  intro b hb
  rcases List.mem_map.mp hb with ⟨k, -, rfl⟩
  rfl

/-- A 400×400 widget: snaps to a 2×2 grid span. -/
def bigWidget (i : Nat) : Widget :=
  { id := i, data := "", x := 0, y := 0, width := 400, height := 400, zIndex := 0 }

theorem spansOf_bigWidget (i : Nat) : spansOf (bigWidget i) = (2, 2) := by
  unfold spansOf getGridSizeFromDimensions bigWidget
  rw [COLUMN_WIDTH_eq, ROW_HEIGHT_eq]
  norm_num

theorem recalc_cons (w : Widget) (ws : List Widget) :
    recalculateLayout (w :: ws) = (layoutPass [0, 0] (w :: ws)).mergeSort widgetLe := by
  unfold recalculateLayout
  simp only [List.isEmpty_cons, Bool.false_eq_true, if_false]
  rfl

theorem recalcU_cons (w : Widget) (ws : List Widget) :
    recalculateLayoutUnbounded (w :: ws) =
      (layoutPassUnbounded [0, 0] (w :: ws)).mergeSort widgetLe := by
  unfold recalculateLayoutUnbounded
  simp only [List.isEmpty_cons, Bool.false_eq_true, if_false]
  rfl

theorem bigPass_eq :
    layoutPass [0, 0] (List.replicate 32769 (bigWidget 0)) =
      (List.range 32769).map (fun k => mkPlaced (bigWidget 0) ((2 * k) % U16) 0 2 2) := by
  rw [replicate_eq_map_range,
    pass22 32769 (fun _ => bigWidget 0) 0 (by show 0 < 65536; omega)
      (fun k _ => spansOf_bigWidget 0)]
  refine List.map_congr_left ?_
  intro k _
  rw [show 0 + 2 * k = 2 * k by ring]

theorem bigPassU_eq :
    layoutPassUnbounded [0, 0] (List.replicate 32769 (bigWidget 0)) =
      (List.range 32769).map (fun k => mkPlaced (bigWidget 0) (2 * k) 0 2 2) := by
  rw [replicate_eq_map_range,
    pass22U 32769 (fun _ => bigWidget 0) 0 (fun k _ => spansOf_bigWidget 0)]
  refine List.map_congr_left ?_
  intro k _
  rw [show 0 + 2 * k = 2 * k by ring]

theorem recalc_big :
    recalculateLayout (List.replicate 32769 (bigWidget 0)) =
      ((List.range 32769).map
        (fun k => mkPlaced (bigWidget 0) ((2 * k) % U16) 0 2 2)).mergeSort widgetLe := by
  have hcons : List.replicate 32769 (bigWidget 0) =
      bigWidget 0 :: List.replicate 32768 (bigWidget 0) := rfl
  rw [hcons, recalc_cons, ← hcons, bigPass_eq]

theorem recalcU_big :
    recalculateLayoutUnbounded (List.replicate 32769 (bigWidget 0)) =
      ((List.range 32769).map
        (fun k => mkPlaced (bigWidget 0) (2 * k) 0 2 2)).mergeSort widgetLe := by
  have hcons : List.replicate 32769 (bigWidget 0) =
      bigWidget 0 :: List.replicate 32768 (bigWidget 0) := rfl
  rw [hcons, recalcU_cons, ← hcons, bigPassU_eq]

theorem mem_recalcU_top :
    mkPlaced (bigWidget 0) 65536 0 2 2 ∈
      recalculateLayoutUnbounded (List.replicate 32769 (bigWidget 0)) := by
  rw [recalcU_big]
  refine (List.mergeSort_perm _ widgetLe).mem_iff.mpr ?_
  refine List.mem_map.mpr ⟨32768, List.mem_range.mpr (by omega), ?_⟩
  norm_num

theorem not_mem_recalc_top :
    mkPlaced (bigWidget 0) 65536 0 2 2 ∉
      recalculateLayout (List.replicate 32769 (bigWidget 0)) := by
  rw [recalc_big]
  intro hmem
  have hmem' := (List.mergeSort_perm _ widgetLe).mem_iff.mp hmem
  rcases List.mem_map.mp hmem' with ⟨k, hk, heq⟩
  have hrow := congrArg Widget.gridRow? heq
  simp only [mkPlaced_row, Option.some.injEq, Int.natCast_inj] at hrow
  have hlt : (2 * k) % U16 < U16 := Nat.mod_lt _ (by show 0 < 65536; omega)
  have hlt' : (2 * k) % U16 < 65536 := hlt
  omega

/-- The 16-bit horizon wrap makes the packer diverge from the unbounded
skyline algorithm on 32769 double-span widgets. -/
theorem bigWrapDiff :
    recalculateLayout (List.replicate 32769 (bigWidget 0)) ≠
      recalculateLayoutUnbounded (List.replicate 32769 (bigWidget 0)) := by
  intro h
  apply not_mem_recalc_top
  rw [h]
  exact mem_recalcU_top

theorem cellDisjoint_not_self22 (w w' : Widget) :
    ¬ cellDisjoint (mkPlaced w 0 0 2 2) (mkPlaced w' 0 0 2 2) := by
  have h1 : IsPlaced (mkPlaced w 0 0 2 2) 0 0 2 2 :=
    isPlaced_mkPlaced w 0 0 2 2 (Or.inr rfl) (Or.inr rfl) (by omega)
  have h2 : IsPlaced (mkPlaced w' 0 0 2 2) 0 0 2 2 :=
    isPlaced_mkPlaced w' 0 0 2 2 (Or.inr rfl) (Or.inr rfl) (by omega)
  unfold cellDisjoint
  rw [h1.rowOf_eq, h1.colOf_eq, h1.rowSpanOf_eq, h1.colSpanOf_eq,
    h2.rowOf_eq, h2.colOf_eq, h2.rowSpanOf_eq, h2.colSpanOf_eq]
  omega

/-- With the wraparound, the packed output contains two widgets occupying
the same 2×2 cell rectangle. -/
theorem wrapOverlap :
    ¬ (recalculateLayout (List.replicate 32769 (bigWidget 0))).Pairwise cellDisjoint := by
  rw [recalc_big]
  intro hpw
  have hpw2 : ((List.range 32769).map
      (fun k => mkPlaced (bigWidget 0) ((2 * k) % U16) 0 2 2)).Pairwise cellDisjoint :=
    ((List.mergeSort_perm _ widgetLe).pairwise_iff
      (fun h => cellDisjoint_symm h)).mp hpw
  have hlen : ((List.range 32769).map
      (fun k => mkPlaced (bigWidget 0) ((2 * k) % U16) 0 2 2)).length = 32769 := by
    simp
  have h00 := (List.pairwise_iff_getElem.mp hpw2) 0 32768
    (by rw [hlen]; omega) (by rw [hlen]; omega) (by omega)
  rw [List.getElem_map, List.getElem_map, List.getElem_range, List.getElem_range] at h00
  have e0 : (2 * 0) % U16 = 0 := by show (2 * 0) % 65536 = 0; omega
  have e1 : (2 * 32768) % U16 = 0 := by show (2 * 32768) % 65536 = 0; norm_num
  rw [e0, e1] at h00
  exact cellDisjoint_not_self22 _ _ h00

/-! ## Facts about the reorder resolver -/

theorem binSearch_le (rem : List Widget) (t : Int) (d : Bool) :
    ∀ (n low high : Nat), high - low ≤ n → low ≤ high →
      binSearch rem t d low high ≤ high := by
  intro n
  induction n with
  | zero =>
    intro low high hn hle
    rw [binSearch]
    rw [dif_neg (by omega : ¬ low < high)]
    exact hle
  | succ n ih =>
    intro low high hn hle
    rw [binSearch]
    by_cases hlt : low < high
    · rw [dif_pos hlt]
      have hmid1 : low ≤ (low + high) / 2 := by omega
      have hmid2 : (low + high) / 2 < high := by omega
      dsimp only
      split
      · split
        · exact ih ((low + high) / 2 + 1) high (by omega) (by omega)
        · exact le_trans (ih low ((low + high) / 2) (by omega) (by omega)) (by omega)
      · split
        · exact ih ((low + high) / 2 + 1) high (by omega) (by omega)
        · exact le_trans (ih low ((low + high) / 2) (by omega) (by omega)) (by omega)
    · rw [dif_neg hlt]
      exact hle

theorem cons_getD_eraseIdx_perm :
    ∀ (l : List Widget) (i : Nat), i < l.length →
      (l.getD i default :: l.eraseIdx i).Perm l := by
  intro l
  induction l with
  | nil => intro i h; simp at h
  | cons a t ih =>
    intro i h
    cases i with
    | zero => exact List.Perm.refl _
    | succ i =>
      have hi : i < t.length := by simpa using h
      have hgd : (a :: t).getD (i + 1) default = t.getD i default := rfl
      have her : (a :: t).eraseIdx (i + 1) = a :: t.eraseIdx i := rfl
      rw [hgd, her]
      exact (List.Perm.swap a (t.getD i default) (t.eraseIdx i)).trans
        ((ih i hi).cons a)

theorem findIdx?_some_facts (p : Widget → Bool) :
    ∀ (l : List Widget) (s i : Nat), List.findIdx? p l s = some i →
      s ≤ i ∧ i - s < l.length := by
  intro l
  induction l with
  | nil => intro s i h; simp [List.findIdx?] at h
  | cons a t ih =>
    intro s i h
    rw [List.findIdx?] at h
    split at h
    · simp only [Option.some.injEq] at h
      subst h
      simp
    · have := ih (s + 1) i h
      simp only [List.length_cons]
      omega

theorem findIdx?_some_lt {p : Widget → Bool} {l : List Widget} {i : Nat}
    (h : List.findIdx? p l = some i) : i < l.length := by
  have := findIdx?_some_facts p l 0 i h
  omega

/-- Structure of `reorderWidgets` when the dragged id is present: either a
pure no-op or a full repack of a permutation of the input. -/
theorem reorder_cases (ws : List Widget) (wid : Nat) (x y : ℚ) (i : Nat)
    (hfi : ws.findIdx? (fun w => w.id == wid) = some i) :
    reorderWidgets ws wid x y = ws ∨
      ∃ ws', ws'.Perm ws ∧ reorderWidgets ws wid x y = recalculateLayout ws' := by
  unfold reorderWidgets
  rw [hfi]
  dsimp only
  by_cases hkey : targetSortKeyOf x y = widgetSortKey (ws.getD i default)
  · rw [if_pos hkey]
    exact Or.inl rfl
  · rw [if_neg hkey]
    right
    refine ⟨_, ?_, rfl⟩
    have hi : i < ws.length := findIdx?_some_lt hfi
    have hlow : binSearch (ws.eraseIdx i) (targetSortKeyOf x y)
        (decide (targetSortKeyOf x y > widgetSortKey (ws.getD i default)))
        0 (ws.eraseIdx i).length ≤ (ws.eraseIdx i).length :=
      binSearch_le _ _ _ (ws.eraseIdx i).length 0 (ws.eraseIdx i).length
        (by omega) (by omega)
    exact (List.perm_insertIdx _ _ hlow).trans (cons_getD_eraseIdx_perm ws i hi)

/-! ## Content height: bounded window scan versus full scan -/

/-- Modelled from the spec (claim C8): the full scan `max(y + height)` over
the whole sequence, plus the margin and the fixed padding constant. -/
def fullContentHeight (widgets : List Widget) : ℚ :=
  if widgets.isEmpty then 0
  else (widgets.foldl (fun maxY w => max maxY (w.y + w.height)) 0) + MARGIN + 100

theorem ite_lt_eq_max (m b : ℚ) : (if m < b then b else m) = max m b := by
  rcases le_or_lt b m with h | h
  · rw [if_neg (not_lt.mpr h), max_eq_left h]
  · rw [if_pos h, max_eq_right (le_of_lt h)]

theorem foldl_max_le {A : ℚ} : ∀ (l : List ℚ) (a : ℚ), a ≤ A → (∀ b ∈ l, b ≤ A) →
    l.foldl max a ≤ A := by
  intro l
  induction l with
  | nil => intro a ha _; exact ha
  | cons b l ih =>
    intro a ha hb
    refine ih (max a b) (max_le ha (hb b (List.mem_cons_self b l))) ?_
    intro b' hb'
    exact hb b' (List.mem_cons_of_mem b hb')

theorem init_le_foldl_max : ∀ (l : List ℚ) (a : ℚ), a ≤ l.foldl max a := by
  intro l
  induction l with
  | nil => intro a; exact le_refl a
  | cons b l ih =>
    intro a
    exact le_trans (le_max_left a b) (ih (max a b))

theorem mem_le_foldl_max : ∀ (l : List ℚ) (a b : ℚ), b ∈ l → b ≤ l.foldl max a := by
  intro l
  induction l with
  | nil => intro a b hb; simp at hb
  | cons c l ih =>
    intro a b hb
    rcases List.mem_cons.mp hb with rfl | hb'
    · exact le_trans (le_max_right a b) (init_le_foldl_max l (max a b))
    · exact ih (max a c) b hb'

theorem isEmpty_false_of_length_ne {l : List Widget} (h : l.length ≠ 0) :
    l.isEmpty = false := by
  cases l with
  | nil => simp at h
  | cons a t => rfl


theorem getD_mem {l : List Widget} {i : Nat} (h : i < l.length) :
    l.getD i default ∈ l := by
  rw [List.getD_eq_getElem l default h]
  exact List.getElem_mem h

/-- Strictly increasing grid keys make the scalar key `2·row + col` grow at
least by one per position. -/
theorem z_chain (l : List Widget) (hp : l.Pairwise keyLt)
    (hsh : ∀ w ∈ l, ∃ r c cs rs, IsPlaced w r c cs rs) :
    ∀ (d i : Nat), i + d < l.length →
      2 * rowOf (l.getD i default) + colOf (l.getD i default) + (d : Int) ≤
        2 * rowOf (l.getD (i + d) default) + colOf (l.getD (i + d) default) := by
  intro d
  induction d with
  | zero => intro i h; simp
  | succ d ih =>
    intro i h
    have hidx : i + (d + 1) = i + d + 1 := by omega
    rw [hidx]
    have hz := ih i (by omega)
    have hstep : keyLt (l.getD (i + d) default) (l.getD (i + d + 1) default) := by
      rw [List.getD_eq_getElem l default (by omega : i + d < l.length),
        List.getD_eq_getElem l default (by omega : i + d + 1 < l.length)]
      exact List.pairwise_iff_getElem.mp hp (i + d) (i + d + 1)
        (by omega) (by omega) (by omega)
    obtain ⟨r, c, cs, rs, hipa⟩ := hsh _ (getD_mem (by omega : i + d < l.length))
    obtain ⟨r', c', cs', rs', hipb⟩ := hsh _ (getD_mem (by omega : i + d + 1 < l.length))
    unfold keyLt at hstep
    rw [hipa.rowOf_eq, hipa.colOf_eq, hipb.rowOf_eq, hipb.colOf_eq] at hstep
    rw [hipa.rowOf_eq, hipa.colOf_eq] at hz
    rw [hipb.rowOf_eq, hipb.colOf_eq]
    have hca : c + cs ≤ 2 := hipa.hcb
    have hcb2 : c' + cs' ≤ 2 := hipb.hcb
    have hcs : 1 ≤ cs := by rcases hipa.hcs with h' | h' <;> omega
    have hcs' : 1 ≤ cs' := by rcases hipb.hcs with h' | h' <;> omega
    omega

theorem placed_height_le {w : Widget} {r c cs rs : Nat} (h : IsPlaced w r c cs rs) :
    w.height ≤ 378 := by
  rw [h.hh]
  rcases h.hrs with hr | hr <;> rw [hr] <;>
    norm_num [getDimensionsFromGridSize, ROW_HEIGHT_eq, MARGIN]

theorem placed_height_ge {w : Widget} {r c cs rs : Nat} (h : IsPlaced w r c cs rs) :
    363/2 ≤ w.height := by
  rw [h.hh]
  rcases h.hrs with hr | hr <;> rw [hr] <;>
    norm_num [getDimensionsFromGridSize, ROW_HEIGHT_eq, MARGIN]

/-- On a no-wrap packer output, a widget at least 4 positions before the
last one lies at least two rows higher, so its bottom edge is weakly above
the last widget's bottom edge. -/
theorem bottom_le_last (l : List Widget) (hp : l.Pairwise keyLt)
    (hsh : ∀ w ∈ l, ∃ r c cs rs, IsPlaced w r c cs rs)
    (j : Nat) (hj : j < l.length) (hfar : j + 4 ≤ l.length - 1) :
    (l.getD j default).y + (l.getD j default).height ≤
      (l.getD (l.length - 1) default).y + (l.getD (l.length - 1) default).height := by
  have hz := z_chain l hp hsh (l.length - 1 - j) j (by omega)
  have hje : j + (l.length - 1 - j) = l.length - 1 := by omega
  rw [hje] at hz
  obtain ⟨r, c, cs, rs, hipa⟩ := hsh _ (getD_mem hj)
  obtain ⟨r', c', cs', rs', hipb⟩ := hsh _ (getD_mem (by omega : l.length - 1 < l.length))
  rw [hipa.rowOf_eq, hipa.colOf_eq, hipb.rowOf_eq, hipb.colOf_eq] at hz
  have hca : c + cs ≤ 2 := hipa.hcb
  have hcb2 : c' + cs' ≤ 2 := hipb.hcb
  have hcs : 1 ≤ cs := by rcases hipa.hcs with h' | h' <;> omega
  have hcs' : 1 ≤ cs' := by rcases hipb.hcs with h' | h' <;> omega
  have hrow : r + 2 ≤ r' := by omega
  have hrowq : (r : ℚ) + 2 ≤ (r' : ℚ) := by exact_mod_cast hrow
  have hha := placed_height_le hipa
  have hhb := placed_height_ge hipb
  rw [hipa.hy, hipb.hy, GRID_STEP_Y_eq]
  nlinarith [hha, hhb, hrowq]

theorem window_fold_eq (l : List Widget) (hlen1 : 1 ≤ l.length)
    (hp : l.Pairwise keyLt)
    (hsh : ∀ w ∈ l, ∃ r c cs rs, IsPlaced w r c cs rs) :
    (List.range (min l.length (COLUMNS + 2))).foldl
      (fun maxY i => max maxY ((l.getD (l.length - 1 - i) default).y +
        (l.getD (l.length - 1 - i) default).height)) 0 =
    l.foldl (fun maxY w => max maxY (w.y + w.height)) 0 := by
  have hscan : min l.length (COLUMNS + 2) = min l.length 4 := rfl
  rw [hscan]
  have hw : (List.range (min l.length 4)).foldl
      (fun maxY i => max maxY ((l.getD (l.length - 1 - i) default).y +
        (l.getD (l.length - 1 - i) default).height)) 0 =
      ((List.range (min l.length 4)).map
        (fun i => (l.getD (l.length - 1 - i) default).y +
          (l.getD (l.length - 1 - i) default).height)).foldl max 0 := by
    rw [List.foldl_map]
  have hf : l.foldl (fun maxY w => max maxY (w.y + w.height)) 0 =
      (l.map (fun w => w.y + w.height)).foldl max 0 := by
    rw [List.foldl_map]
  rw [hw, hf]
  have hs1 : 1 ≤ min l.length 4 := by omega
  have hs2 : min l.length 4 ≤ l.length := by omega
  apply le_antisymm
  · refine foldl_max_le _ 0 (init_le_foldl_max _ 0) ?_
    intro b hb
    rcases List.mem_map.mp hb with ⟨i, hi, rfl⟩
    have hi' : i < min l.length 4 := List.mem_range.mp hi
    have hidx : l.length - 1 - i < l.length := by omega
    refine mem_le_foldl_max _ 0 _ ?_
    exact List.mem_map.mpr ⟨l.getD (l.length - 1 - i) default, getD_mem hidx, rfl⟩
  · refine foldl_max_le _ 0 (init_le_foldl_max _ 0) ?_
    intro b hb
    rcases List.mem_map.mp hb with ⟨w, hwmem, rfl⟩
    rcases List.mem_iff_getElem.mp hwmem with ⟨j, hj, rfl⟩
    have hgd : l[j] = l.getD j default := (List.getD_eq_getElem l default hj).symm
    rw [hgd]
    rcases Nat.lt_or_ge j (l.length - min l.length 4) with hfar | hnear
    · -- far from the end: dominated by the last element, which the window sees
      have hfar4 : j + 4 ≤ l.length - 1 := by omega
      have hble := bottom_le_last l hp hsh j hj hfar4
      refine le_trans hble (mem_le_foldl_max _ 0 _ ?_)
      refine List.mem_map.mpr ⟨0, List.mem_range.mpr (by omega), ?_⟩
      rw [show l.length - 1 - 0 = l.length - 1 by omega]
    · -- inside the window
      refine mem_le_foldl_max _ 0 _ ?_
      refine List.mem_map.mpr ⟨l.length - 1 - j, List.mem_range.mpr (by omega), ?_⟩
      rw [show l.length - 1 - (l.length - 1 - j) = j by omega]

theorem window_eq_full (ts : List Widget) (hlen : ts.length ≤ 32767) :
    calculateTotalContentHeight (recalculateLayout ts) =
      fullContentHeight (recalculateLayout ts) := by
  rw [recalc_eq_layoutPass ts hlen]
  cases ts with
  | nil => rfl
  | cons t ts' =>
    have hlength : (layoutPass [0, 0] (t :: ts')).length = ts'.length + 1 := by
      rw [length_layoutPass]; rfl
    have hE : (layoutPass [0, 0] (t :: ts')).isEmpty = false :=
      isEmpty_false_of_length_ne (by omega)
    have hfacts := layoutPass_facts (t :: ts') 0 0 none trivial
      (by simp only [List.length_cons] at hlen ⊢; omega)
    have hsh : ∀ w ∈ layoutPass [0, 0] (t :: ts'),
        ∃ r c cs rs, IsPlaced w r c cs rs := by
      intro w hw
      obtain ⟨r, c, cs, rs, hip, -, -, -⟩ := hfacts.shapes w hw
      exact ⟨r, c, cs, rs, hip⟩
    unfold calculateTotalContentHeight fullContentHeight
    rw [hE]
    simp only [Bool.false_eq_true, if_false, ite_lt_eq_max]
    rw [window_fold_eq (layoutPass [0, 0] (t :: ts')) (by omega) hfacts.sorted hsh]

/-! ## Idempotence fails under wraparound: pinning down the sorted output -/

/-- A sorted list whose elements have pairwise-distinct `(y, x)` keys except
between equal values is determined by its multiset of elements. -/
theorem sorted_perm_eq (l₁ : List Widget) :
    ∀ (l₂ : List Widget), l₁.Perm l₂ →
      l₁.Pairwise (fun a b => widgetLe a b = true) →
      l₂.Pairwise (fun a b => widgetLe a b = true) →
      (∀ a ∈ l₁, ∀ b ∈ l₁, a.y = b.y → a.x = b.x → a = b) →
      l₁ = l₂ := by
  induction l₁ with
  | nil =>
    intro l₂ hperm _ _ _
    exact (hperm.symm.eq_nil).symm
  | cons a t ih =>
    intro l₂ hperm hs1 hs2 hinj
    cases l₂ with
    | nil =>
      have := hperm.eq_nil
      simp at this
    | cons b t₂ =>
      have hbmem : b ∈ a :: t := hperm.mem_iff.mpr (List.mem_cons_self b t₂)
      have hamem : a ∈ b :: t₂ := hperm.mem_iff.mp (List.mem_cons_self a t)
      have hab : widgetLe a b = true := by
        rcases List.mem_cons.mp hbmem with heq | hmem
        · rw [heq]; exact widgetLe_refl _
        · exact (List.pairwise_cons.mp hs1).1 b hmem
      have hba : widgetLe b a = true := by
        rcases List.mem_cons.mp hamem with heq | hmem
        · rw [heq]; exact widgetLe_refl _
        · exact (List.pairwise_cons.mp hs2).1 a hmem
      have hk := widgetLe_antisymm_keys hab hba
      have hae : a = b := hinj a (List.mem_cons_self a t) b hbmem hk.1 hk.2
      subst hae
      have hperm' : t.Perm t₂ := hperm.cons_inv
      have htail := ih t₂ hperm' (List.pairwise_cons.mp hs1).2
        (List.pairwise_cons.mp hs2).2
        (fun x hx y hy => hinj x (List.mem_cons_of_mem a hx) y (List.mem_cons_of_mem a hy))
      rw [htail]

theorem mkPlaced22_y_inj {w w' : Widget} {r r' : Nat}
    (h : (mkPlaced w r 0 2 2).y = (mkPlaced w' r' 0 2 2).y) : r = r' := by
  rw [mkPlaced_y, mkPlaced_y, GRID_STEP_Y_eq] at h
  have : (r : ℚ) = (r' : ℚ) := by
    field_simp at h
    exact_mod_cast h
  exact_mod_cast this

theorem mkPlaced22_le {w w' : Widget} {r r' : Nat} (h : r ≤ r') :
    widgetLe (mkPlaced w r 0 2 2) (mkPlaced w' r' 0 2 2) = true := by
  simp only [widgetLe, Bool.or_eq_true, Bool.and_eq_true, decide_eq_true_eq,
    beq_iff_eq, mkPlaced_y, mkPlaced_x]
  rcases Nat.lt_or_ge r r' with hlt | hge
  · left
    exact mul_lt_mul_of_pos_right (by exact_mod_cast hlt) GRID_STEP_Y_pos
  · have : r = r' := by omega
    subst this
    right
    exact ⟨rfl, le_refl _⟩

theorem layoutPass_cons (h : List Nat) (w : Widget) (ws : List Widget) :
    layoutPass h (w :: ws) =
      (placeWidget h w).2 :: layoutPass (placeWidget h w).1 ws := rfl

theorem cex3_pass1 :
    layoutPass [0, 0] (bigWidget 0 :: bigWidget 1 :: List.replicate 32767 (bigWidget 0)) =
      mkPlaced (bigWidget 0) 0 0 2 2 :: mkPlaced (bigWidget 1) 2 0 2 2 ::
        (List.range 32767).map
          (fun k => mkPlaced (bigWidget 0) ((4 + 2 * k) % U16) 0 2 2) := by
  have h1 : placeWidget [0, 0] (bigWidget 0) = ([2, 2], mkPlaced (bigWidget 0) 0 0 2 2) := by
    rw [place22 (bigWidget 0) (spansOf_bigWidget 0) 0]
    norm_num [U16]
  have h2 : placeWidget [2, 2] (bigWidget 1) = ([4, 4], mkPlaced (bigWidget 1) 2 0 2 2) := by
    rw [place22 (bigWidget 1) (spansOf_bigWidget 1) 2]
    norm_num [U16]
  rw [layoutPass_cons, h1]
  dsimp only
  rw [layoutPass_cons, h2]
  dsimp only
  rw [replicate_eq_map_range,
    pass22 32767 (fun _ => bigWidget 0) 4 (by show 4 < 65536; omega)
      (fun k _ => spansOf_bigWidget 0)]

theorem cex3_split :
    (List.range 32767).map (fun k => mkPlaced (bigWidget 0) ((4 + 2 * k) % U16) 0 2 2) =
      (List.range 32766).map (fun k => mkPlaced (bigWidget 0) (4 + 2 * k) 0 2 2) ++
        [mkPlaced (bigWidget 0) 0 0 2 2] := by
  have h1 : (List.range 32766).map
      (fun k => mkPlaced (bigWidget 0) ((4 + 2 * k) % U16) 0 2 2) =
      (List.range 32766).map (fun k => mkPlaced (bigWidget 0) (4 + 2 * k) 0 2 2) := by
    refine List.map_congr_left ?_
    intro k hk
    have hk' : k < 32766 := List.mem_range.mp hk
    rw [Nat.mod_eq_of_lt (show 4 + 2 * k < U16 by show 4 + 2 * k < 65536; omega)]
  have h2 : List.map (fun k => mkPlaced (bigWidget 0) ((4 + 2 * k) % U16) 0 2 2)
      [32766] = [mkPlaced (bigWidget 0) 0 0 2 2] := by
    rw [List.map_singleton,
      show (4 + 2 * 32766) % U16 = 0 by show (4 + 2 * 32766) % 65536 = 0; norm_num]
  rw [show (32767 : Nat) = 32766 + 1 from rfl, List.range_succ, List.map_append, h1, h2]

theorem cex3_perm :
    (layoutPass [0, 0]
      (bigWidget 0 :: bigWidget 1 :: List.replicate 32767 (bigWidget 0))).Perm
      (mkPlaced (bigWidget 0) 0 0 2 2 :: mkPlaced (bigWidget 0) 0 0 2 2 ::
        mkPlaced (bigWidget 1) 2 0 2 2 ::
        (List.range 32766).map (fun k => mkPlaced (bigWidget 0) (4 + 2 * k) 0 2 2)) := by
  rw [cex3_pass1, cex3_split]
  refine List.Perm.cons _ ?_
  refine ((List.perm_append_singleton _ _).cons _).trans ?_
  exact List.Perm.swap _ _ _

theorem cex3_sorted :
    (mkPlaced (bigWidget 0) 0 0 2 2 :: mkPlaced (bigWidget 0) 0 0 2 2 ::
      mkPlaced (bigWidget 1) 2 0 2 2 ::
      (List.range 32766).map
        (fun k => mkPlaced (bigWidget 0) (4 + 2 * k) 0 2 2)).Pairwise
      (fun a b => widgetLe a b = true) := by
  have hM : ((List.range 32766).map
      (fun k => mkPlaced (bigWidget 0) (4 + 2 * k) 0 2 2)).Pairwise
      (fun a b => widgetLe a b = true) := by
    refine List.pairwise_map.mpr ?_
    refine (List.pairwise_lt_range 32766).imp ?_
    intro a b hab
    exact mkPlaced22_le (by omega)
  have hmemle : ∀ (w : Widget) (r : Nat), (∀ k, k < 32766 → r ≤ 4 + 2 * k) →
      ∀ b ∈ (List.range 32766).map (fun k => mkPlaced (bigWidget 0) (4 + 2 * k) 0 2 2),
        widgetLe (mkPlaced w r 0 2 2) b = true := by
    intro w r hr b hb
    rcases List.mem_map.mp hb with ⟨k, hk, rfl⟩
    exact mkPlaced22_le (hr k (List.mem_range.mp hk))
  rw [List.pairwise_cons]
  refine ⟨?_, ?_⟩
  · intro b hb
    rcases List.mem_cons.mp hb with rfl | hb
    · exact widgetLe_refl _
    rcases List.mem_cons.mp hb with rfl | hb
    · exact mkPlaced22_le (by omega)
    · exact hmemle (bigWidget 0) 0 (fun k _ => by omega) b hb
  rw [List.pairwise_cons]
  refine ⟨?_, ?_⟩
  · intro b hb
    rcases List.mem_cons.mp hb with rfl | hb
    · exact mkPlaced22_le (by omega)
    · exact hmemle (bigWidget 0) 0 (fun k _ => by omega) b hb
  rw [List.pairwise_cons]
  exact ⟨hmemle (bigWidget 1) 2 (fun k _ => by omega), hM⟩

theorem cex3_mem_forms :
    ∀ a ∈ (layoutPass [0, 0]
        (bigWidget 0 :: bigWidget 1 :: List.replicate 32767 (bigWidget 0))).mergeSort
        widgetLe,
      (∃ r, (r = 0 ∨ ∃ k, k < 32767 ∧ r = (4 + 2 * k) % U16) ∧
        a = mkPlaced (bigWidget 0) r 0 2 2) ∨ a = mkPlaced (bigWidget 1) 2 0 2 2 := by
  intro a ha
  have hmem := (List.mergeSort_perm _ widgetLe).mem_iff.mp ha
  rw [cex3_pass1] at hmem
  rcases List.mem_cons.mp hmem with heq | hmem
  · exact Or.inl ⟨0, Or.inl rfl, heq⟩
  rcases List.mem_cons.mp hmem with heq | hmem
  · exact Or.inr heq
  rcases List.mem_map.mp hmem with ⟨k, hk, heq⟩
  exact Or.inl ⟨(4 + 2 * k) % U16, Or.inr ⟨k, List.mem_range.mp hk, rfl⟩, heq.symm⟩

theorem cex3_keyInj :
    ∀ a ∈ (layoutPass [0, 0]
        (bigWidget 0 :: bigWidget 1 :: List.replicate 32767 (bigWidget 0))).mergeSort
        widgetLe,
      ∀ b ∈ (layoutPass [0, 0]
        (bigWidget 0 :: bigWidget 1 :: List.replicate 32767 (bigWidget 0))).mergeSort
        widgetLe,
      a.y = b.y → a.x = b.x → a = b := by
  intro a ha b hb hy hx
  have hrne : ∀ r : Nat, (r = 0 ∨ ∃ k, k < 32767 ∧ r = (4 + 2 * k) % U16) → r ≠ 2 := by
    intro r hr
    rcases hr with rfl | ⟨k, hk, rfl⟩
    · omega
    · intro h2
      have h2' : (4 + 2 * k) % 65536 = 2 := h2
      omega
  rcases cex3_mem_forms a ha with ⟨r, hr, rfl⟩ | rfl <;>
    rcases cex3_mem_forms b hb with ⟨r', hr', rfl⟩ | rfl
  · rw [mkPlaced22_y_inj hy]
  · exact absurd (mkPlaced22_y_inj hy) (hrne r hr)
  · exact absurd (mkPlaced22_y_inj hy).symm (hrne r' hr')
  · rfl

set_option maxHeartbeats 2000000 in
theorem cex3_out1 :
    recalculateLayout (bigWidget 0 :: bigWidget 1 :: List.replicate 32767 (bigWidget 0)) =
      mkPlaced (bigWidget 0) 0 0 2 2 :: mkPlaced (bigWidget 0) 0 0 2 2 ::
        mkPlaced (bigWidget 1) 2 0 2 2 ::
        (List.range 32766).map (fun k => mkPlaced (bigWidget 0) (4 + 2 * k) 0 2 2) := by
  rw [recalc_cons]
  exact sorted_perm_eq _ _
    ((List.mergeSort_perm _ widgetLe).trans cex3_perm)
    (@List.sorted_mergeSort Widget widgetLe
      (fun a b c hab hbc => widgetLe_trans hab hbc) widgetLe_total _)
    cex3_sorted cex3_keyInj

theorem cex3_pass2 :
    layoutPass [0, 0]
      (mkPlaced (bigWidget 0) 0 0 2 2 :: mkPlaced (bigWidget 0) 0 0 2 2 ::
        mkPlaced (bigWidget 1) 2 0 2 2 ::
        (List.range 32766).map (fun k => mkPlaced (bigWidget 0) (4 + 2 * k) 0 2 2)) =
      mkPlaced (bigWidget 0) 0 0 2 2 :: mkPlaced (bigWidget 0) 2 0 2 2 ::
        mkPlaced (bigWidget 1) 4 0 2 2 ::
        (List.range 32766).map
          (fun k => mkPlaced (bigWidget 0) ((6 + 2 * k) % U16) 0 2 2) := by
  have hsp0 : spansOf (mkPlaced (bigWidget 0) 0 0 2 2) = (2, 2) :=
    spansOf_mkPlaced _ _ _ _ _ (Or.inr rfl) (Or.inr rfl)
  have hsp2 : spansOf (mkPlaced (bigWidget 1) 2 0 2 2) = (2, 2) :=
    spansOf_mkPlaced _ _ _ _ _ (Or.inr rfl) (Or.inr rfl)
  have h1 : placeWidget [0, 0] (mkPlaced (bigWidget 0) 0 0 2 2) =
      ([2, 2], mkPlaced (bigWidget 0) 0 0 2 2) := by
    rw [place22 _ hsp0 0, mkPlaced_mkPlaced]
    norm_num [U16]
  have h2 : placeWidget [2, 2] (mkPlaced (bigWidget 0) 0 0 2 2) =
      ([4, 4], mkPlaced (bigWidget 0) 2 0 2 2) := by
    rw [place22 _ hsp0 2, mkPlaced_mkPlaced]
    norm_num [U16]
  have h3 : placeWidget [4, 4] (mkPlaced (bigWidget 1) 2 0 2 2) =
      ([6, 6], mkPlaced (bigWidget 1) 4 0 2 2) := by
    rw [place22 _ hsp2 4, mkPlaced_mkPlaced]
    norm_num [U16]
  rw [layoutPass_cons, h1]
  dsimp only
  rw [layoutPass_cons, h2]
  dsimp only
  rw [layoutPass_cons, h3]
  dsimp only
  rw [pass22 32766 (fun k => mkPlaced (bigWidget 0) (4 + 2 * k) 0 2 2) 6
    (by show 6 < 65536; omega)
    (fun k _ => spansOf_mkPlaced _ _ _ _ _ (Or.inr rfl) (Or.inr rfl))]
  refine congrArg _ (congrArg _ (congrArg _ ?_))
  refine List.map_congr_left ?_
  intro k _
  rw [mkPlaced_mkPlaced]

/-! ## Concrete fixtures for witnesses and counterexamples -/

/-- A blank payload used to build placed fixtures. -/
def blankWidget (i : Nat) : Widget :=
  { id := i, data := "", x := 0, y := 0, width := 0, height := 0, zIndex := 0 }

/-- A single-span widget placed exactly at cell `(r, c)`. -/
def cellWidget (i r c : Nat) : Widget := mkPlaced (blankWidget i) r c 1 1

/-- A single-span widget placed at cell `(r, 0)`. -/
def rowWidget (i r : Nat) : Widget := cellWidget i r 0

/-- Modelled from the spec (claim C6): the reorder resolver with the
projected target row also clamped into the nearest valid (non-negative)
row, as the claim's "clamps the projected target cell into the nearest
valid column and row" would have it. -/
def targetSortKeyClamped (newX newY : ℚ) : Int :=
  max 0 (jsRound (newY / GRID_STEP_Y)) * (COLUMNS : Int) +
    max 0 (min (jsRound ((newX - MARGIN) / GRID_STEP_X)) ((COLUMNS : Int) - 1))

/-- Modelled from the spec (claim C6): `reorderWidgets` with the row-clamped
target key. -/
def reorderWidgetsRowClamped (widgets : List Widget) (widgetId : Nat) (newX newY : ℚ) :
    List Widget :=
  match widgets.findIdx? (fun w => w.id == widgetId) with
  | none => widgets
  | some widgetIndex =>
    let widget := widgets.getD widgetIndex default
    let targetSortKey := targetSortKeyClamped newX newY
    let originalSortKey := widgetSortKey widget
    if targetSortKey = originalSortKey then widgets
    else
      let remainingWidgets := widgets.eraseIdx widgetIndex
      let isDraggingDown := decide (targetSortKey > originalSortKey)
      let low := binSearch remainingWidgets targetSortKey isDraggingDown
        0 remainingWidgets.length
      recalculateLayout (remainingWidgets.insertIdx low widget)

/-- A widget with raw (un-snapped) position and a large height, used to show
that sortedness alone does not make the bounded height scan exact. -/
def flatWidget (i : Nat) (x h : ℚ) : Widget :=
  { id := i, data := "", x := x, y := 0, width := 165, height := h, zIndex := 0 }

/-- A widget at a garbage position (not a packed state). -/
def strayWidget : Widget :=
  { id := 1, data := "", x := 999, y := 999, width := 165, height := 363/2, zIndex := 0 }

/-! ## The claims -/

/-- C1 (counterexample): the no-overlap claim fails as stated: packing 32769
double-span widgets wraps the 16-bit horizon, and the output contains two
widgets occupying the same cell rectangle `[0,2) × [0,2)`. -/
theorem c1_overlap_counterexample :
    ¬ (recalculateLayout (List.replicate 32769 (bigWidget 0))).Pairwise cellDisjoint :=
  wrapOverlap

/-- C1 (amended): for every input of at most 32767 widgets (so that no
16-bit horizon wraparound can occur), every pair of items in the output of
`recalculateLayout` occupies disjoint cell rectangles. -/
theorem c1_no_overlap (ws : List Widget) (hlen : ws.length ≤ 32767) :
    (recalculateLayout ws).Pairwise cellDisjoint := by
  rw [recalc_eq_layoutPass ws hlen]
  exact (layoutPass_facts ws 0 0 none trivial (by simp; omega)).disj

/-- C1 (witness): the amended theorem applied to a concrete two-widget input. -/
theorem c1_no_overlap_witness :
    [rowWidget 1 0, bigWidget 2].length ≤ 32767 ∧
    (recalculateLayout [rowWidget 1 0, bigWidget 2]).Pairwise cellDisjoint :=
  ⟨by decide, c1_no_overlap [rowWidget 1 0, bigWidget 2] (by decide)⟩

/-- C2 (counterexample): the claim's placement rule with the literal
(unbounded) horizon write `horizon[c'] = bestRow + rowSpan` disagrees with
`recalculateLayout` on 32769 double-span widgets. -/
theorem c2_literal_counterexample :
    recalculateLayout (List.replicate 32769 (bigWidget 0)) ≠
      packSpecLiteral (List.replicate 32769 (bigWidget 0)) := by
  rw [packSpecLiteral_eq]
  exact bigWrapDiff

/-- C2 (amended): `recalculateLayout` processes items in input order and
places each at the argmin-with-leftmost-tie-break row over the stored
horizon, writing `(bestRow + rowSpan) mod 2^16` to every covered column —
i.e. it coincides with the claim's packer once its horizon write is reduced
modulo 2^16. -/
theorem c2_matches_spec (ws : List Widget) :
    recalculateLayout ws = packSpecAmended ws :=
  (packSpecAmended_eq ws).symm

/-- C3 (counterexample): idempotence fails as stated: with 32769 widgets the
wrapped horizon breaks the sortedness of the pass output, and repacking the
packed output moves the distinguishable widget (id 1) to a different slot. -/
theorem c3_idempotence_counterexample :
    recalculateLayout (recalculateLayout
      (bigWidget 0 :: bigWidget 1 :: List.replicate 32767 (bigWidget 0))) ≠
      recalculateLayout
        (bigWidget 0 :: bigWidget 1 :: List.replicate 32767 (bigWidget 0)) := by
  rw [cex3_out1, recalc_cons, cex3_pass2]
  intro heq
  have hmem : mkPlaced (bigWidget 1) 2 0 2 2 ∈
      (mkPlaced (bigWidget 0) 0 0 2 2 :: mkPlaced (bigWidget 0) 0 0 2 2 ::
        mkPlaced (bigWidget 1) 2 0 2 2 ::
        (List.range 32766).map (fun k => mkPlaced (bigWidget 0) (4 + 2 * k) 0 2 2)) := by
    exact List.mem_cons_of_mem _ (List.mem_cons_of_mem _ (List.mem_cons_self _ _))
  rw [← heq] at hmem
  have hmem' := (List.mergeSort_perm _ widgetLe).mem_iff.mp hmem
  rcases List.mem_cons.mp hmem' with h | hmem'
  · have := congrArg Widget.id h
    simp [mkPlaced_id, bigWidget] at this
  rcases List.mem_cons.mp hmem' with h | hmem'
  · have := congrArg Widget.id h
    simp [mkPlaced_id, bigWidget] at this
  rcases List.mem_cons.mp hmem' with h | hmem'
  · have := congrArg Widget.gridRow? h
    norm_num at this
  · rcases List.mem_map.mp hmem' with ⟨k, hk, hkeq⟩
    have := congrArg Widget.id hkeq
    simp [mkPlaced_id, bigWidget] at this

/-- C3 (amended): on at most 32767 widgets (no 16-bit wraparound),
`recalculateLayout` is idempotent: repacking its own output returns the very
same list — every recomputed placement matches and the identity-preservation
branch returns each item unchanged. -/
theorem c3_idempotent (ws : List Widget) (hlen : ws.length ≤ 32767) :
    recalculateLayout (recalculateLayout ws) = recalculateLayout ws :=
  recalc_idem ws hlen

/-- C3 (witness): idempotence at a concrete input. -/
theorem c3_idempotent_witness :
    [rowWidget 1 0, bigWidget 2].length ≤ 32767 ∧
    recalculateLayout (recalculateLayout [rowWidget 1 0, bigWidget 2]) =
      recalculateLayout [rowWidget 1 0, bigWidget 2] :=
  ⟨by decide, c3_idempotent [rowWidget 1 0, bigWidget 2] (by decide)⟩

/-- C4: three single-span items in rows 0, 1, 2 of column 0; dragging the
row-0 item to the center of row 2's cell yields order `[row1, row2, row0]`,
and dragging the row-2 item to the center of row 0's cell yields
`[row2, row0, row1]` — insert-after when moving down, insert-before when
moving up. -/
theorem c4_direction_sensitivity :
    (reorderWidgets [rowWidget 1 0, rowWidget 2 1, rowWidget 3 2] 1
      (195/2) (1935/4)).map Widget.id = [2, 3, 1] ∧
    (reorderWidgets [rowWidget 1 0, rowWidget 2 1, rowWidget 3 2] 3
      (195/2) (363/4)).map Widget.id = [3, 1, 2] := by
  with_unfolding_all decide

/-- C5 (counterexample): on a missing id the claim fails as stated: `resize`
still repacks, so on a non-packed input the sequence changes even though the
id does not occur. -/
theorem c5_resize_missing_counterexample :
    (∀ w ∈ [strayWidget], w.id ≠ 2) ∧
    resizeWidgetInList [strayWidget] 2 165 (363/2) ≠ [strayWidget] := by
  with_unfolding_all decide

/-- C5 (amended): on a missing id, `reorderWidgets` and `bringToFront`
return the input unchanged; `removeWidget` and `resizeWidgetInList` return
`recalculateLayout` of the unchanged elements, which is the input itself
whenever the input is a packer output of at most 32767 widgets. -/
theorem c5_missing_id (ws : List Widget) (wid : Nat) (x y newW newH : ℚ)
    (habs : ∀ w ∈ ws, w.id ≠ wid) :
    reorderWidgets ws wid x y = ws ∧
    bringToFront ws wid = ws ∧
    removeWidget ws wid = recalculateLayout ws ∧
    resizeWidgetInList ws wid newW newH = recalculateLayout ws ∧
    (∀ ts, ts.length ≤ 32767 → ws = recalculateLayout ts →
      removeWidget ws wid = ws ∧ resizeWidgetInList ws wid newW newH = ws) := by
  have hfind : ws.findIdx? (fun w => w.id == wid) = none := by
    rw [List.findIdx?_eq_none_iff]
    intro w hw
    simp [habs w hw]
  have hre : reorderWidgets ws wid x y = ws := by
    unfold reorderWidgets
    rw [hfind]
  have hbf : bringToFront ws wid = ws := by
    unfold bringToFront
    have hid : ∀ w ∈ ws, (if w.id == wid then { w with zIndex := 999 } else w) = w := by
      intro w hw
      rw [if_neg (by simp [habs w hw])]
    rw [List.map_congr_left hid]; exact List.map_id ws
  have hfil : ws.filter (fun w => !(w.id == wid)) = ws := by
    rw [List.filter_eq_self]
    intro w hw
    simp [habs w hw]
  have hrm : removeWidget ws wid = recalculateLayout ws := by
    unfold removeWidget
    rw [hfil]
  have hmap : ws.map (fun w => if w.id == wid
      then { w with width := newW, height := newH } else w) = ws := by
    have hid : ∀ w ∈ ws, (if w.id == wid
        then { w with width := newW, height := newH } else w) = w := by
      intro w hw
      rw [if_neg (by simp [habs w hw])]
    rw [List.map_congr_left hid]; exact List.map_id ws
  have hrs : resizeWidgetInList ws wid newW newH = recalculateLayout ws := by
    unfold resizeWidgetInList
    rw [hmap]
  refine ⟨hre, hbf, hrm, hrs, ?_⟩
  intro ts hts hq
  constructor
  · rw [hrm, hq]
    exact recalc_idem ts hts
  · rw [hrs, hq]
    exact recalc_idem ts hts

/-- C5 (witness): the amended theorem at a concrete input with a missing id. -/
theorem c5_missing_id_witness :
    (∀ w ∈ [rowWidget 1 0], w.id ≠ 2) ∧
    (reorderWidgets [rowWidget 1 0] 2 0 0 = [rowWidget 1 0] ∧
      bringToFront [rowWidget 1 0] 2 = [rowWidget 1 0] ∧
      removeWidget [rowWidget 1 0] 2 = recalculateLayout [rowWidget 1 0] ∧
      resizeWidgetInList [rowWidget 1 0] 2 300 300 = recalculateLayout [rowWidget 1 0] ∧
      (∀ ts, ts.length ≤ 32767 → [rowWidget 1 0] = recalculateLayout ts →
        removeWidget [rowWidget 1 0] 2 = [rowWidget 1 0] ∧
        resizeWidgetInList [rowWidget 1 0] 2 300 300 = [rowWidget 1 0])) :=
  ⟨by with_unfolding_all decide,
   c5_missing_id [rowWidget 1 0] 2 0 0 300 300 (by with_unfolding_all decide)⟩

/-- C6 (counterexample): the drop-point row is not clamped: at a drop point
far above the content (`y = -900`) the result differs from the spec-modelled
variant that clamps the row into the nearest valid row. -/
theorem c6_row_not_clamped_counterexample :
    reorderWidgets
      [cellWidget 1 0 0, cellWidget 2 0 1, cellWidget 3 1 0, cellWidget 4 1 1]
      4 195 (-900) ≠
    reorderWidgetsRowClamped
      [cellWidget 1 0 0, cellWidget 2 0 1, cellWidget 3 1 0, cellWidget 4 1 1]
      4 195 (-900) := by
  with_unfolding_all decide

/-- C6 (amended): when the dragged id is present, no drop point is rejected:
`reorderWidgets` either returns the input unchanged (target key equals the
origin key) or returns `recalculateLayout` of a permutation of the input (a
full repack of the same items). The target column is clamped into the valid
range; the row enters the sort key unclamped. -/
theorem c6_reorder_total (ws : List Widget) (wid : Nat) (x y : ℚ) (w : Widget)
    (hw : w ∈ ws) (hid : w.id = wid) :
    reorderWidgets ws wid x y = ws ∨
      ∃ ws', ws'.Perm ws ∧ reorderWidgets ws wid x y = recalculateLayout ws' := by
  cases hfi : ws.findIdx? (fun w => w.id == wid) with
  | none =>
    exfalso
    have := List.findIdx?_eq_none_iff.mp hfi w hw
    simp [hid] at this
  | some i => exact reorder_cases ws wid x y i hfi

/-- C6 (witness): the amended theorem at a concrete input. -/
theorem c6_reorder_total_witness :
    (rowWidget 1 0 ∈ [rowWidget 1 0, rowWidget 2 1] ∧ (rowWidget 1 0).id = 1) ∧
    (reorderWidgets [rowWidget 1 0, rowWidget 2 1] 1 (195/2) (1179/4) =
        [rowWidget 1 0, rowWidget 2 1] ∨
      ∃ ws', ws'.Perm [rowWidget 1 0, rowWidget 2 1] ∧
        reorderWidgets [rowWidget 1 0, rowWidget 2 1] 1 (195/2) (1179/4) =
          recalculateLayout ws') :=
  ⟨⟨by with_unfolding_all decide, by with_unfolding_all decide⟩,
   c6_reorder_total [rowWidget 1 0, rowWidget 2 1] 1 (195/2) (1179/4)
     (rowWidget 1 0) (by with_unfolding_all decide) (by with_unfolding_all decide)⟩

/-- C7: whenever the target cell's sort key projected from the drop point
equals the dragged item's origin sort key, `reorderWidgets` returns the
input sequence itself, with no removal, reinsertion or repack. -/
theorem c7_noop_reorder (ws : List Widget) (wid : Nat) (x y : ℚ) (i : Nat)
    (hfi : ws.findIdx? (fun w => w.id == wid) = some i)
    (hkey : targetSortKeyOf x y = widgetSortKey (ws.getD i default)) :
    reorderWidgets ws wid x y = ws := by
  unfold reorderWidgets
  rw [hfi]
  dsimp only
  rw [if_pos hkey]

/-- C7 (witness): a no-op reorder at a concrete input. -/
theorem c7_noop_reorder_witness :
    ([rowWidget 1 0].findIdx? (fun w => w.id == 1) = some 0 ∧
      targetSortKeyOf (195/2) (363/4) = widgetSortKey ([rowWidget 1 0].getD 0 default)) ∧
    reorderWidgets [rowWidget 1 0] 1 (195/2) (363/4) = [rowWidget 1 0] :=
  ⟨⟨by with_unfolding_all decide, by with_unfolding_all decide⟩,
   c7_noop_reorder [rowWidget 1 0] 1 (195/2) (363/4) 0
     (by with_unfolding_all decide) (by with_unfolding_all decide)⟩

/-- C8 (counterexample): being sorted by ascending `(y, x)` does not make
the bounded scan exact: on a sorted five-element sequence whose first
element is very tall, the bounded scan misses the maximum. -/
theorem c8_sorted_counterexample :
    ([flatWidget 1 0 1000, flatWidget 2 1 1, flatWidget 3 2 1, flatWidget 4 3 1,
      flatWidget 5 4 1].Pairwise (fun a b => widgetLe a b = true)) ∧
    calculateTotalContentHeight
      [flatWidget 1 0 1000, flatWidget 2 1 1, flatWidget 3 2 1, flatWidget 4 3 1,
        flatWidget 5 4 1] ≠
    fullContentHeight
      [flatWidget 1 0 1000, flatWidget 2 1 1, flatWidget 3 2 1, flatWidget 4 3 1,
        flatWidget 5 4 1] := by
  with_unfolding_all decide

/-- C8 (amended): `calculateTotalContentHeight` returns 0 on the empty
sequence, and on every actual packer output of at most 32767 widgets the
bounded scan over the last `COLUMNS + 2` entries agrees with the full scan
`max(y + height) + MARGIN + 100` over the whole sequence. -/
theorem c8_bounded_scan_exact :
    calculateTotalContentHeight ([] : List Widget) = 0 ∧
    ∀ ts : List Widget, ts.length ≤ 32767 →
      calculateTotalContentHeight (recalculateLayout ts) =
        fullContentHeight (recalculateLayout ts) :=
  ⟨rfl, window_eq_full⟩

/-- C8 (witness): the amended theorem at a concrete three-widget input. -/
theorem c8_bounded_scan_exact_witness :
    [rowWidget 1 0, bigWidget 2, rowWidget 3 0].length ≤ 32767 ∧
    calculateTotalContentHeight
        (recalculateLayout [rowWidget 1 0, bigWidget 2, rowWidget 3 0]) =
      fullContentHeight
        (recalculateLayout [rowWidget 1 0, bigWidget 2, rowWidget 3 0]) :=
  ⟨by decide,
   c8_bounded_scan_exact.2 [rowWidget 1 0, bigWidget 2, rowWidget 3 0] (by decide)⟩

/-- C9: `bringToFront` sets the matching item's `zIndex` to the fixed front
constant 999 and changes nothing else: length and order are unchanged,
non-matching items are returned unchanged, and the matching item keeps every
other field. -/
theorem c9_bring_to_front (ws : List Widget) (wid : Nat) (i : Nat)
    (hi : i < ws.length) :
    (bringToFront ws wid).length = ws.length ∧
    ((ws.getD i default).id ≠ wid →
      (bringToFront ws wid).getD i default = ws.getD i default) ∧
    ((ws.getD i default).id = wid →
      (bringToFront ws wid).getD i default =
        { ws.getD i default with zIndex := 999 }) := by
  have hlen : (bringToFront ws wid).length = ws.length := by
    unfold bringToFront
    exact List.length_map _ _
  have hi' : i < (bringToFront ws wid).length := by rw [hlen]; exact hi
  have hget : (bringToFront ws wid).getD i default =
      (if (ws.getD i default).id == wid
        then { ws.getD i default with zIndex := 999 } else ws.getD i default) := by
    rw [List.getD_eq_getElem _ _ hi', List.getD_eq_getElem _ _ hi]
    unfold bringToFront
    simp only [List.getElem_map]
  refine ⟨hlen, ?_, ?_⟩
  · intro hne
    rw [hget, if_neg (by simp only [beq_iff_eq]; exact hne)]
  · intro he
    rw [hget, if_pos (by simp only [beq_iff_eq]; exact he)]

/-- C9 (witness): the theorem at a concrete input, at the matching index. -/
theorem c9_bring_to_front_witness :
    0 < [rowWidget 1 0, rowWidget 2 1].length ∧
    ((bringToFront [rowWidget 1 0, rowWidget 2 1] 1).length =
        [rowWidget 1 0, rowWidget 2 1].length ∧
      (([rowWidget 1 0, rowWidget 2 1].getD 0 default).id ≠ 1 →
        (bringToFront [rowWidget 1 0, rowWidget 2 1] 1).getD 0 default =
          [rowWidget 1 0, rowWidget 2 1].getD 0 default) ∧
      (([rowWidget 1 0, rowWidget 2 1].getD 0 default).id = 1 →
        (bringToFront [rowWidget 1 0, rowWidget 2 1] 1).getD 0 default =
          { [rowWidget 1 0, rowWidget 2 1].getD 0 default with zIndex := 999 })) :=
  ⟨by decide, c9_bring_to_front [rowWidget 1 0, rowWidget 2 1] 1 0 (by decide)⟩

/-- C10: the horizon is 16-bit: there is an input on which the packer's
placements differ from the unbounded-arithmetic skyline algorithm, and an
input on which the packed output has overlapping cell rectangles (so the
no-overlap guarantee needs the no-wraparound precondition). -/
theorem c10_uint16_wrap_divergence :
    (∃ ws : List Widget,
      recalculateLayout ws ≠ recalculateLayoutUnbounded ws) ∧
    (∃ ws : List Widget, ¬ (recalculateLayout ws).Pairwise cellDisjoint) :=
  ⟨⟨List.replicate 32769 (bigWidget 0), bigWrapDiff⟩,
   ⟨List.replicate 32769 (bigWidget 0), wrapOverlap⟩⟩
